import Mathlib

/-!
Verification development for the variables-engine repository: a shallow
embedding of the core data model (models/entity.py, models/variable.py,
models/project.py), the dependency-driven query planner (data_puller.py)
and the evaluation engine (engine.py), together with theorems settling the
spec claims.

Modelling conventions:
- Python dicts become insertion-ordered association lists
  (List (String × α)); dict assignment replaces in place or appends.
- Python sets become insertion-ordered duplicate-free lists; set.pop is
  modelled as popping the head (the CPython set pop order for strings is
  unspecified and hash-seed dependent, so the model fixes insertion order).
- Values (Python Any) become the inductive Value; numbers are rationals.
- Exceptions that propagate become Except.error / Option.none; exceptions
  that the source catches are handled inside the definitions.
- Unbounded recursion (Python call stack) becomes an explicit fuel
  parameter; exhausted fuel models a RecursionError escaping to the caller.
-/

/-- Runtime values flowing through the engine and the puller
(Python Any restricted to the shapes the scenarios use; numbers are
integers, which is exact for every number any scenario computes). -/
inductive Value where
  | vnone : Value
  | vbool : Bool → Value
  | vnum : Int → Value
  | vstr : String → Value
  deriving DecidableEq, Repr

/-- Modelled from the spec: models/entity.py is not among the sources; §3 of
the spec defines Entity as an id plus a name, which is also exactly how the
tests construct it. -/
structure Entity where
  id : String
  name : String
  deriving DecidableEq, Repr

/-- models/variable.py. The loosely typed metadata dict is flattened to the
two keys the core reads: input_variables (the property
metadata.get(\x22input_variables\x22, []) as a list of names) and
foreign_key. foreign_key encodes metadata.get(\x22foreign_key\x22):
none models an absent or falsy entry, some none a truthy mapping that lacks
the entity key (so that indexing it with entity raises KeyError), and
some (some e) the mapping with entity e. -/
structure Variable where
  id : String
  name : String
  entity_id : String
  is_input : Bool
  is_persisted : Bool
  function_name : Option String
  input_variables : List String
  foreign_key : Option (Option String)
  description : Option String
  deriving DecidableEq, Repr

/-- models/project.py. The field vars holds the source field named
variables (a Lean keyword). -/
structure Project where
  id : String
  name : String
  entities : List Entity
  vars : List Variable
  deriving DecidableEq, Repr

/-! Association-list helpers modelling Python dict and set semantics. -/

/-- Python dict read: d.get(k) / d[k]. -/
def dictGet {α : Type} (m : List (String × α)) (k : String) : Option α :=
  (m.find? (fun p => p.1 == k)).map Prod.snd

/-- Python dict assignment d[k] = v: replaces the binding in place if the
key exists, otherwise appends it (insertion order preserved). -/
def dictInsert {α : Type} (m : List (String × α)) (k : String) (v : α) :
    List (String × α) :=
  if (m.find? (fun p => p.1 == k)).isSome then
    m.map (fun p => if p.1 = k then (k, v) else p)
  else m ++ [(k, v)]

/-- Python set.add: appends the element unless already present. -/
def setAdd (s : List String) (x : String) : List String :=
  if x ∈ s then s else s ++ [x]

/-- Python set.update: folds setAdd over the added elements. -/
def setUpdate (s : List String) (xs : List String) : List String :=
  xs.foldl setAdd s

/-- The required-variables mapping entity name → set of variable names
(a defaultdict(set) in the source). -/
abbrev RV := List (String × List String)

/-- Reading a defaultdict(set) without asserting the key exists. -/
def rvGet (rv : RV) (k : String) : List String :=
  (dictGet rv k).getD []

/-- required_vars[k].add(x): defaultdict semantics, the entry is created
when absent. -/
def rvAdd (rv : RV) (k : String) (x : String) : RV :=
  match dictGet rv k with
  | Option.none => rv ++ [(k, [x])]
  | some s => dictInsert rv k (setAdd s x)

/-- required_vars[k].update(xs): defaultdict semantics, the entry is created
even when xs is empty. -/
def rvUpdate (rv : RV) (k : String) (xs : List String) : RV :=
  match dictGet rv k with
  | Option.none => rv ++ [(k, setUpdate [] xs)]
  | some s => dictInsert rv k (setUpdate s xs)

/-! Data puller: dependency graph, required-variable closure, query
compilation and pull_data (data_puller.py). -/

/-- VariableDependency from data_puller.py. The field var holds the source
field named variable (a Lean keyword); dependencies keeps the declared
input-variable names in list form (the source stores a set of the same
names). -/
structure VariableDependency where
  var : Variable
  dependencies : List String
  foreign_keys : List (String × String)
  deriving DecidableEq, Repr

abbrev Graph := List (String × VariableDependency)

/-- DataPuller.build_dependency_graph: one VariableDependency per variable,
keyed by name (later variables with the same name overwrite earlier ones,
as dict assignment does). Reading a truthy foreign_key mapping without an
entity key raises KeyError, modelled as Except.error. -/
def buildDependencyGraph (p : Project) : Except Unit Graph :=
  p.vars.foldlM
    (fun g v =>
      match v.foreign_key with
      | Option.none =>
          Except.ok (dictInsert g v.name ⟨v, v.input_variables, []⟩)
      | some Option.none => Except.error ()
      | some (some ent) =>
          Except.ok (dictInsert g v.name ⟨v, v.input_variables, [(v.name, ent)]⟩))
    []

/-- All dependency names mentioned anywhere in a graph; used only to size
the worklist fuel. -/
def depNames (g : Graph) : List String :=
  g.foldr (fun pr acc => pr.2.dependencies ++ acc) []

/-- The foreign-key loop of one worklist iteration: for each foreign-key
entry whose variable name is in the current required set of the traversed
entity, add the literal id to the referenced entity. -/
def fkFold (ent : String) (fks : List (String × String)) (rv : RV) : RV :=
  fks.foldl
    (fun acc pr => if pr.1 ∈ rvGet acc ent then rvAdd acc pr.2 "id" else acc)
    rv

/-- One entity worklist from DataPuller.get_required_variables: pop a name,
skip it when absent from the graph, otherwise enqueue its unseen
dependencies (the set difference deps - required_vars[entity]), add all
dependencies to the required set, and for a foreign key add the literal id
to the referenced entity. Fuel bounds the number of iterations; the
returned second component is the worklist left when fuel runs out. -/
def runWorklist : Nat → Graph → String → RV → List String → RV × List String
  | 0, _, _, rv, tp => (rv, tp)
  | Nat.succ fuel, g, ent, rv, tp =>
    match tp with
    | [] => (rv, [])
    | x :: rest =>
      match dictGet g x with
      | Option.none => runWorklist fuel g ent rv rest
      | some vd =>
        let req := rvGet rv ent
        let tp2 := (vd.dependencies.filter (fun d => !(req.contains d))).foldl setAdd rest
        let rv3 := fkFold ent vd.foreign_keys (rvUpdate rv ent vd.dependencies)
        runWorklist fuel g ent rv3 tp2

/-- Seeding of required_vars: all requested output names, then all provided
input keys, per entity. -/
def seedRequired (requested_outputs : List (String × List String))
    (provided_inputs : List (String × List (String × Value))) : RV :=
  let rv1 := requested_outputs.foldl (fun rv pr => rvUpdate rv pr.1 pr.2) []
  provided_inputs.foldl (fun rv pr => rvUpdate rv pr.1 (pr.2.map Prod.fst)) rv1

/-- Fuel that always suffices for one entity worklist (proved below). -/
def workFuel (g : Graph) (tp : List String) : Nat :=
  tp.length + 2 * (depNames g).length

/-- The traversal loop of get_required_variables: it iterates over the
snapshot list(required_vars.items()) taken after seeding, so only entities
present in the request are traversed; each traversal starts from the
current (possibly already enlarged) required set of its entity. The second
component collects any worklist remainder left by exhausted fuel. -/
def traverseStep (g : Graph) (st : RV × List String) (ent : String) : RV × List String :=
  let tp := rvGet st.1 ent
  let out := runWorklist (workFuel g tp) g ent st.1 tp
  (out.1, st.2 ++ out.2)

def traverseAll (g : Graph) (rv0 : RV) : RV × List String :=
  (rv0.map Prod.fst).foldl (traverseStep g) (rv0, [])

/-- DataPuller.get_required_variables. -/
def getRequiredVariables (p : Project)
    (requested_outputs : List (String × List String))
    (provided_inputs : List (String × List (String × Value))) : Except Unit RV :=
  (buildDependencyGraph p).map
    (fun g => (traverseAll g (seedRequired requested_outputs provided_inputs)).1)

/-- The worklist remainders of the same run; ok [] says every worklist was
run to completion (the loops terminated rather than running out of fuel). -/
def getRequiredLeftovers (p : Project)
    (requested_outputs : List (String × List String))
    (provided_inputs : List (String × List (String × Value))) : Except Unit (List String) :=
  (buildDependencyGraph p).map
    (fun g => (traverseAll g (seedRequired requested_outputs provided_inputs)).2)

/-! Query compilation and pull_data. -/

/-- A single-quote character, kept out of string literals. -/
def squote : String := String.mk [Char.ofNat 39]

/-- Wrap a name in single quotes as the SQL fragments of the source do. -/
def sqQuote (s : String) : String := squote ++ s ++ squote

/-- ASCII lowercasing of entity names (str.lower in the source), written
over the character list so that it evaluates inside the kernel. -/
def strToLower (s : String) : String := String.mk (s.data.map Char.toLower)

/-- next((e for e in project.entities if e.name == entity_name), None). -/
def findEntity (p : Project) (entName : String) : Option Entity :=
  p.entities.find? (fun e => e.name == entName)

/-- The CTE string appended for one entity in _build_optimal_query. -/
def renderCte (entName : String) (entId : String) (varNames : List String) : String :=
  "\n            " ++ strToLower entName ++ "_data AS (\n                SELECT \n                    "
    ++ sqQuote entName
    ++ " as entity_name,\n                    vv.entity_instance_id,\n                    v.name as variable_name,\n                    vv.value\n                FROM variables_engine.variable_values vv\n                JOIN variables_engine.variables v ON v.id = vv.variable_id\n                WHERE v.entity_id = "
    ++ sqQuote entId
    ++ "\n                AND v.name IN ("
    ++ String.intercalate ", " (varNames.map sqQuote)
    ++ ")\n            )"

/-- The entity_ctes list: one CTE per required_vars entry whose entity name
has a matching Entity in the project; entries without a match are skipped
(the emptiness of the variable set is not checked). -/
def entityCtes (p : Project) (rv : RV) : List String :=
  rv.filterMap (fun pr => (findEntity p pr.1).map (fun e => renderCte pr.1 e.id pr.2))

/-- The UNION ALL section: one SELECT per key of required_vars, with no
check that the entity exists in the project (so a skipped entity still
contributes an arm referring to an undefined CTE name). -/
def unionSelects (rv : RV) : List String :=
  rv.map (fun pr => "SELECT * FROM " ++ strToLower pr.1 ++ "_data")

/-- DataPuller._build_optimal_query. The input_filters parameter is accepted
and never used, as in the source. -/
def buildOptimalQuery (p : Project) (rv : RV)
    (input_filters : List (String × List (String × Value))) : String :=
  let _ := input_filters
  "WITH " ++ String.intercalate ",\n" (entityCtes p rv)
    ++ "\n        SELECT * FROM (\n        "
    ++ String.intercalate "\nUNION ALL\n" (unionSelects rv)
    ++ "\n        ) combined_data\n        ORDER BY entity_name, entity_instance_id, variable_name;\n        "

/-- One flat row returned by the store, as consumed by pull_data. -/
structure Row where
  entity_name : String
  entity_instance_id : String
  variable_name : String
  value : Value
  deriving DecidableEq, Repr

/-- The external store (query_helper.get_query_results_as_dictionaries):
given the compiled query it either returns rows or raises. -/
abbrev Store := String → Except Unit (List Row)

/-- The row-processing loop of pull_data. required_vars here is a plain
dict, so looking up an entity absent from it raises KeyError
(Except.error); a row whose variable is not required for its entity is
dropped. -/
def processRows (required : RV) (rows : List Row) :
    Except Unit (List (String × List (String × Value))) :=
  rows.foldlM
    (fun res row =>
      match dictGet required row.entity_name with
      | Option.none => Except.error ()
      | some varNames =>
        if varNames.contains row.variable_name then
          let cur := (dictGet res row.entity_name).getD []
          Except.ok (dictInsert res row.entity_name
            (dictInsert cur row.variable_name row.value))
        else Except.ok res)
    []

/-- DataPuller.pull_data. The required-variable computation and the query
compilation run before the try block, so their exceptions propagate
(Except.error); the store call and the row processing run inside it, so
any of their failures is converted to the empty mapping. -/
def pullData (store : Store) (p : Project)
    (requested_outputs : List (String × List String))
    (provided_inputs : List (String × List (String × Value))) :
    Except Unit (List (String × List (String × Value))) := do
  let required ← getRequiredVariables p requested_outputs provided_inputs
  let query := buildOptimalQuery p required provided_inputs
  match (do
      let rows ← store query
      processRows required rows :
      Except Unit (List (String × List (String × Value)))) with
  | Except.ok res => Except.ok res
  | Except.error _ => Except.ok []

/-! Evaluation engine (engine.py). -/

/-- The function registry: a mapping from function name to a callable that
receives the resolved inputs as named arguments in declaration order and
either returns a value or raises (Option.none). The process-wide REGISTRY
object lives in function_registry.py, which is not among the sources; per
spec §6 it is an external pluggable mapping, so the engine here is
parametrised by it. -/
abbrev Registry := List (String × (List (String × Value) → Option Value))

/-- Events recorded each time a registry function is invoked: the name of
the variable being computed and whether the call returned normally. The
trace is a proof artefact used to state invocation-count properties; it
does not influence any computed value. -/
abbrev Trace := List (String × Bool)

abbrev Cache := List (String × Value)

/-- variable_lookup built by Engine.execute: a name-keyed dict over
project.variables, so a later variable with the same name wins. -/
def variableLookup (vs : List Variable) (n : String) : Option Variable :=
  vs.foldl (fun acc v => if v.name == n then some v else acc) Option.none

/-- entity_lookup built by Engine.execute, same last-wins convention. -/
def entityLookup (p : Project) (n : String) : Option Entity :=
  p.entities.foldl (fun acc e => if e.name == n then some e else acc) Option.none

/-- The dependency-resolution loop of Engine._calculate_variable: resolve
each declared input name in order with the supplied resolver, abort with a
None result for the surrounding variable as soon as a name is missing from
variable_lookup (keeping the side effects accumulated so far), and
propagate an uncaught exception (Option.none) from the resolver. -/
def depLoop (lkp : List Variable)
    (resolve : Variable → Cache → Trace → Option (Value × Cache × Trace)) :
    List String → Cache → Trace →
    Option (Option (List (String × Value)) × Cache × Trace)
  | [], c, t => some (some [], c, t)
  | n :: rest, c, t =>
    match variableLookup lkp n with
    | Option.none => some (Option.none, c, t)
    | some w =>
      match resolve w c t with
      | Option.none => Option.none
      | some (val, c2, t2) =>
        match depLoop lkp resolve rest c2 t2 with
        | Option.none => Option.none
        | some (Option.none, c3, t3) => some (Option.none, c3, t3)
        | some (some args, c3, t3) => some (some ((n, val) :: args), c3, t3)

/-- Engine._calculate_variable: cache hit first; input variables read
entity_inputs (caching on success, returning an uncached None when the
input is absent); derived variables need a function name and a registry
entry, resolve their declared inputs recursively, then invoke the function,
caching a normal result and converting an exception to an uncached None.
Fuel models the Python call stack: when it runs out the model returns
Option.none, standing for a RecursionError that nothing in engine.py
catches. -/
def calcVar (reg : Registry) (lkp : List Variable) (entityInputs : List (String × Value)) :
    Nat → Variable → Cache → Trace → Option (Value × Cache × Trace)
  | 0, _, _, _ => Option.none
  | Nat.succ fuel, v, cache, tr =>
    match dictGet cache v.name with
    | some val => some (val, cache, tr)
    | Option.none =>
      if v.is_input then
        match dictGet entityInputs v.name with
        | some val => some (val, dictInsert cache v.name val, tr)
        | Option.none => some (Value.vnone, cache, tr)
      else
        match v.function_name with
        | Option.none => some (Value.vnone, cache, tr)
        | some fname =>
          match dictGet reg fname with
          | Option.none => some (Value.vnone, cache, tr)
          | some fn =>
            match depLoop lkp (fun w c t => calcVar reg lkp entityInputs fuel w c t)
                v.input_variables cache tr with
            | Option.none => Option.none
            | some (Option.none, c2, t2) => some (Value.vnone, c2, t2)
            | some (some args, c2, t2) =>
              match fn args with
              | some r => some (r, dictInsert c2 v.name r, t2 ++ [(v.name, true)])
              | Option.none => some (Value.vnone, c2, t2 ++ [(v.name, false)])

/-- The inner loop of Engine.execute over one entity over its requested variable
names: skip names missing from variable_lookup, skip variables owned by a
different entity, otherwise resolve and record the value (even when it is
None). -/
def execVars (reg : Registry) (lkp : List Variable) (entityInputs : List (String × Value))
    (fuel : Nat) (e : Entity) :
    List String → List (String × Value) → Cache → Trace →
    Option (List (String × Value) × Cache × Trace)
  | [], m, c, t => some (m, c, t)
  | n :: rest, m, c, t =>
    match variableLookup lkp n with
    | Option.none => execVars reg lkp entityInputs fuel e rest m c t
    | some v =>
      if v.entity_id == e.id then
        match calcVar reg lkp entityInputs fuel v c t with
        | Option.none => Option.none
        | some (val, c2, t2) =>
          execVars reg lkp entityInputs fuel e rest (dictInsert m n val) c2 t2
      else execVars reg lkp entityInputs fuel e rest m c t

/-- The outer loop of Engine.execute over the outputs entries: an entity
name missing from entity_lookup is skipped entirely (no key in results);
otherwise results[entity_name] starts as an empty dict and is filled by
execVars, with the single calculated_values cache and the invocation trace
threaded through every entity. -/
def execEntities (reg : Registry) (p : Project)
    (inputs : List (String × List (String × Value))) (fuel : Nat) :
    List (String × List String) → List (String × List (String × Value)) → Cache → Trace →
    Option (List (String × List (String × Value)) × Cache × Trace)
  | [], r, c, t => some (r, c, t)
  | (ent, names) :: rest, r, c, t =>
    match entityLookup p ent with
    | Option.none => execEntities reg p inputs fuel rest r c t
    | some e =>
      let entityInputs := (dictGet inputs ent).getD []
      match execVars reg p.vars entityInputs fuel e names [] c t with
      | Option.none => Option.none
      | some (m, c2, t2) => execEntities reg p inputs fuel rest (dictInsert r ent m) c2 t2

/-- Engine.execute: builds the lookups, creates one empty cache for the
whole call and processes every outputs entry. Returns the results mapping
together with the invocation trace; Option.none models an uncaught
exception (stack exhaustion in a dependency cycle). -/
def execute (reg : Registry) (p : Project)
    (inputs : List (String × List (String × Value)))
    (outputs : List (String × List String)) (fuel : Nat) :
    Option (List (String × List (String × Value)) × Trace) :=
  (execEntities reg p inputs fuel outputs [] [] []).map (fun st => (st.1, st.2.2))

/-! Concrete projects and registries used by the scenario theorems,
witnesses and counterexamples. -/

/-- Shorthand constructor for a variable with the fields the core reads. -/
def mkVar (vid vname veid : String) (inp : Bool) (fn : Option String)
    (deps : List String) (fk : Option (Option String)) : Variable :=
  ⟨vid, vname, veid, inp, false, fn, deps, fk, Option.none⟩

/-- The Customer/Order project of spec scenarios 1 and 2 (the fixture of
test_data_puller.py): Customer has id, name, age, income and the derived
credit_score over age and income; Order has id, amount and the foreign key
customer_id referencing Customer. -/
def pullerProject : Project :=
  ⟨"project1", "Test Project",
   [⟨"entity1", "Customer"⟩, ⟨"entity2", "Order"⟩],
   [mkVar "var1" "id" "entity1" true Option.none [] Option.none,
    mkVar "var2" "name" "entity1" true Option.none [] Option.none,
    mkVar "var3" "credit_score" "entity1" false (some "calculate_credit") ["age", "income"] Option.none,
    mkVar "var7" "age" "entity1" true Option.none [] Option.none,
    mkVar "var8" "income" "entity1" true Option.none [] Option.none,
    mkVar "var4" "id" "entity2" true Option.none [] Option.none,
    mkVar "var5" "customer_id" "entity2" true Option.none [] (some (some "Customer")),
    mkVar "var6" "amount" "entity2" true Option.none [] Option.none]⟩

/-- The Customer/Order project of spec scenarios 3 and 4 (the fixture of
test_engine.py): inputs age and income, derived is_adult and credit_score
on Customer; input amount and derived tax on Order. -/
def engineProject : Project :=
  ⟨"project1", "Test Project",
   [⟨"entity1", "Customer"⟩, ⟨"entity2", "Order"⟩],
   [mkVar "var1" "age" "entity1" true Option.none [] Option.none,
    mkVar "var2" "income" "entity1" true Option.none [] Option.none,
    mkVar "var3" "is_adult" "entity1" false (some "check_adult") ["age"] Option.none,
    mkVar "var4" "credit_score" "entity1" false (some "calculate_credit_score") ["age", "income"] Option.none,
    mkVar "var5" "amount" "entity2" true Option.none [] Option.none,
    mkVar "var6" "tax" "entity2" false (some "calculate_tax") ["amount"] Option.none]⟩

/-- Modelled from the spec: the registry of scenario 3, check_adult being
age at least 18 and calculate_credit_score being age times 10 plus income
over 1000 (function_registry.py is not among the sources). A call with a
missing or non-numeric argument raises, hence Option.none. -/
def specRegistry : Registry :=
  [("check_adult", fun args =>
      match dictGet args "age" with
      | some (Value.vnum a) => some (Value.vbool (decide (18 ≤ a)))
      | _ => Option.none),
   ("calculate_credit_score", fun args =>
      match dictGet args "age", dictGet args "income" with
      | some (Value.vnum a), some (Value.vnum i) => some (Value.vnum (a * 10 + i / 1000))
      | _, _ => Option.none),
   ("calculate_tax", fun args =>
      match dictGet args "amount" with
      | some (Value.vnum a) => some (Value.vnum (a / 10))
      | _ => Option.none)]

/-- Counterexample project for C1: fk_v is a foreign key back to entity A,
so popping it adds the literal id to the required set of A without
enqueueing it; u depends on id, which in turn depends on secret, so secret
is reachable from the request yet the blocked id is never expanded. -/
def c1Proj : Project :=
  ⟨"p", "p", [⟨"ea", "A"⟩],
   [mkVar "v1" "fk_v" "ea" true Option.none [] (some (some "A")),
    mkVar "v2" "u" "ea" true Option.none ["id"] Option.none,
    mkVar "v3" "id" "ea" true Option.none ["secret"] Option.none,
    mkVar "v4" "secret" "ea" true Option.none [] Option.none]⟩

/-- Counterexample project for C2: fk on entity A references C, and the
variable named id on entity C is itself a foreign key referencing D; C is
only reached through foreign-key expansion, so it is never traversed and D
never receives id. -/
def c2Proj : Project :=
  ⟨"p", "p", [⟨"ea", "A"⟩, ⟨"ec", "C"⟩, ⟨"ed", "D"⟩],
   [mkVar "v1" "fk" "ea" true Option.none [] (some (some "C")),
    mkVar "v2" "id" "ec" true Option.none [] (some (some "D"))]⟩

/-- Counterexample project for C3: a single derived variable whose function
always raises; a failed invocation is not cached, so requesting it twice
invokes the function twice. -/
def c3Proj : Project :=
  ⟨"p", "p", [⟨"e1", "E"⟩],
   [mkVar "v1" "x" "e1" false (some "boom") [] Option.none]⟩

/-- A registry function that raises on every call. -/
def boomRegistry : Registry := [("boom", fun _ => Option.none)]

/-- Counterexample project for C4 and C7: the input x exists on both
entities with different provided values; dA and dB are derived on A and B
respectively, both depending on x. -/
def c4Proj : Project :=
  ⟨"p", "p", [⟨"ea", "A"⟩, ⟨"eb", "B"⟩],
   [mkVar "v1" "x" "ea" true Option.none [] Option.none,
    mkVar "v2" "dA" "ea" false (some "identx") ["x"] Option.none,
    mkVar "v3" "dB" "eb" false (some "identx") ["x"] Option.none]⟩

/-- Identity on the named argument x (lambda x: x). -/
def identRegistry : Registry :=
  [("identx", fun args =>
      match dictGet args "x" with
      | some v => some v
      | Option.none => Option.none)]

/-- Counterexample project for C7: fA on entity A raises after resolving
its dependency x (caching the value provided for A); gB on entity B
depends on the same name x. -/
def c7Proj : Project :=
  ⟨"p", "p", [⟨"ea", "A"⟩, ⟨"eb", "B"⟩],
   [mkVar "v1" "x" "ea" true Option.none [] Option.none,
    mkVar "v2" "fA" "ea" false (some "boom") ["x"] Option.none,
    mkVar "v3" "gB" "eb" false (some "identx") ["x"] Option.none]⟩

/-- Registry for the C7 counterexample. -/
def c7Registry : Registry :=
  [("boom", fun _ => Option.none),
   ("identx", fun args =>
      match dictGet args "x" with
      | some v => some v
      | Option.none => Option.none)]

/-- Counterexample project for C5: the foreign_key metadata of bad is a
truthy mapping without an entity key, so build_dependency_graph raises
KeyError before pull_data enters its try block. -/
def c5Proj : Project :=
  ⟨"p", "p", [⟨"e1", "E"⟩],
   [mkVar "v1" "bad" "e1" true Option.none [] (some Option.none)]⟩

/-- A store that always returns no rows. -/
def emptyStore : Store := fun _ => Except.ok []

/-- A store that always raises. -/
def failStore : Store := fun _ => Except.error ()

/-- Counterexample input for C6: a required-variables mapping naming an
entity that the (empty) project does not contain. -/
def c6Proj : Project := ⟨"p", "p", [], []⟩


/-! Basic lemmas about the dict and set helpers. -/

theorem dictGet_nil {α : Type} (k : String) :
    dictGet ([] : List (String × α)) k = Option.none := rfl

theorem dictGet_cons {α : Type} (k1 k : String) (v : α) (m : List (String × α)) :
    dictGet ((k1, v) :: m) k = if k1 = k then some v else dictGet m k := by
  by_cases h : k1 = k
  · simp [dictGet, List.find?_cons_of_pos, h]
  · have hb : ((k1, v).1 == k) = false := by simpa using h
    simp [dictGet, List.find?_cons_of_neg, hb, h]

theorem dictGet_append {α : Type} (m1 m2 : List (String × α)) (k : String) :
    dictGet (m1 ++ m2) k = ((dictGet m1 k).or (dictGet m2 k)) := by
  induction m1 with
  | nil => simp [dictGet_nil]
  | cons p rest ih =>
    obtain ⟨k1, v⟩ := p
    by_cases h : k1 = k <;> simp [dictGet_cons, h, ih]

theorem dictGet_eq_none_iff_find?_eq_none {α : Type} (m : List (String × α)) (k : String) :
    dictGet m k = Option.none ↔ m.find? (fun p => p.1 == k) = Option.none := by
  unfold dictGet
  cases m.find? (fun p => p.1 == k) <;> simp

theorem dictGet_map_replace {α : Type} (m : List (String × α)) (k k2 : String) (v : α) :
    dictGet (m.map (fun p => if p.1 = k then (k, v) else p)) k2 =
      if k2 = k then ((dictGet m k).map (fun _ => v)) else dictGet m k2 := by
  induction m with
  | nil => by_cases h : k2 = k <;> simp [dictGet_nil, h]
  | cons p rest ih =>
    obtain ⟨k1, w⟩ := p
    simp only [List.map_cons]
    by_cases h1 : k1 = k
    · subst h1
      rw [if_pos rfl, dictGet_cons, dictGet_cons, dictGet_cons, ih]
      by_cases h2 : k2 = k1
      · subst h2
        simp
      · have h2s : ¬(k1 = k2) := fun hh => h2 hh.symm
        simp [h2, h2s]
    · rw [if_neg h1, dictGet_cons, dictGet_cons, dictGet_cons, ih]
      by_cases h2 : k1 = k2
      · subst h2
        simp [h1]
      · simp [h1, h2]

theorem dictGet_dictInsert_self {α : Type} (m : List (String × α)) (k : String) (v : α) :
    dictGet (dictInsert m k v) k = some v := by
  unfold dictInsert
  by_cases h : (m.find? (fun p => p.1 == k)).isSome
  · obtain ⟨p, hp⟩ := Option.isSome_iff_exists.mp h
    have hget : dictGet m k = some p.2 := by simp [dictGet, hp]
    simp [h, dictGet_map_replace, hget]
  · simp [h, dictGet_append, dictGet_cons,
      (dictGet_eq_none_iff_find?_eq_none m k).mpr (Option.not_isSome_iff_eq_none.mp h)]

theorem dictGet_dictInsert_ne {α : Type} (m : List (String × α)) (k k2 : String) (v : α)
    (h : k2 ≠ k) : dictGet (dictInsert m k v) k2 = dictGet m k2 := by
  unfold dictInsert
  by_cases hs : (m.find? (fun p => p.1 == k)).isSome
  · simp [hs, dictGet_map_replace, h]
  · rw [if_neg hs, dictGet_append]
    have h1 : dictGet [(k, v)] k2 = Option.none := by
      rw [dictGet_cons]
      simp [Ne.symm h, dictGet_nil]
    rw [h1]
    cases dictGet m k2 <;> rfl

theorem dictGet_dictInsert {α : Type} (m : List (String × α)) (k k2 : String) (v : α) :
    dictGet (dictInsert m k v) k2 = if k2 = k then some v else dictGet m k2 := by
  by_cases h : k2 = k
  · subst h
    simp [dictGet_dictInsert_self]
  · simp [dictGet_dictInsert_ne m k k2 v h, h]

theorem mem_setAdd (s : List String) (x y : String) :
    y ∈ setAdd s x ↔ y ∈ s ∨ y = x := by
  unfold setAdd
  by_cases h : x ∈ s
  · simp only [h, if_true]
    constructor
    · exact fun hy => Or.inl hy
    · rintro (hy | rfl)
      · exact hy
      · exact h
  · simp [h]

theorem mem_foldl_setAdd (xs : List String) (s : List String) (y : String) :
    y ∈ xs.foldl setAdd s ↔ y ∈ s ∨ y ∈ xs := by
  induction xs generalizing s with
  | nil => simp
  | cons x rest ih =>
    simp only [List.foldl_cons, ih, mem_setAdd, List.mem_cons]
    tauto

theorem mem_setUpdate (s xs : List String) (y : String) :
    y ∈ setUpdate s xs ↔ y ∈ s ∨ y ∈ xs := mem_foldl_setAdd xs s y

theorem foldl_setAdd_exists (xs : List String) (s : List String) :
    ∃ t, xs.foldl setAdd s = s ++ t ∧ t.Nodup ∧ (∀ y ∈ t, y ∈ xs ∧ y ∉ s) := by
  induction xs generalizing s with
  | nil => exact ⟨[], by simp⟩
  | cons x rest ih =>
    by_cases h : x ∈ s
    · obtain ⟨t, ht1, ht2, ht3⟩ := ih s
      refine ⟨t, ?_, ht2, fun y hy => ⟨List.mem_cons_of_mem x (ht3 y hy).1, (ht3 y hy).2⟩⟩
      simpa [setAdd, h] using ht1
    · obtain ⟨t, ht1, ht2, ht3⟩ := ih (s ++ [x])
      refine ⟨x :: t, ?_, ?_, ?_⟩
      · simp only [List.foldl_cons]
        rw [show setAdd s x = s ++ [x] by simp [setAdd, h], ht1, List.append_assoc]
        rfl
      · refine List.nodup_cons.mpr ⟨fun hx => ?_, ht2⟩
        exact (ht3 x hx).2 (by simp)
      · intro y hy
        rcases List.mem_cons.mp hy with rfl | hy2
        · exact ⟨by simp, h⟩
        · exact ⟨List.mem_cons_of_mem x (ht3 y hy2).1,
            fun hys => (ht3 y hy2).2 (by simp [hys])⟩

/-! Lemmas about the required-variables mapping operations. -/

theorem contains_iff_mem (l : List String) (a : String) : l.contains a = true ↔ a ∈ l := by
  simp

theorem rvGet_rvUpdate_self (rv : RV) (k : String) (xs : List String) :
    rvGet (rvUpdate rv k xs) k = setUpdate (rvGet rv k) xs := by
  unfold rvUpdate rvGet
  cases h : dictGet rv k with
  | none => simp [dictGet_append, h, dictGet_cons, dictGet_nil]
  | some s => simp [dictGet_dictInsert_self, h]

theorem rvGet_rvUpdate_ne (rv : RV) (k k2 : String) (xs : List String) (h : k2 ≠ k) :
    rvGet (rvUpdate rv k xs) k2 = rvGet rv k2 := by
  unfold rvUpdate rvGet
  cases hk : dictGet rv k with
  | none => simp [dictGet_append, dictGet_cons, dictGet_nil, Ne.symm h]
  | some s => simp [dictGet_dictInsert_ne _ _ _ _ h]

theorem rvGet_rvAdd_self (rv : RV) (k : String) (x : String) :
    rvGet (rvAdd rv k x) k = setAdd (rvGet rv k) x := by
  unfold rvAdd rvGet
  cases h : dictGet rv k with
  | none => simp [dictGet_append, h, dictGet_cons, dictGet_nil, setAdd]
  | some s => simp [dictGet_dictInsert_self, h]

theorem rvGet_rvAdd_ne (rv : RV) (k k2 : String) (x : String) (h : k2 ≠ k) :
    rvGet (rvAdd rv k x) k2 = rvGet rv k2 := by
  unfold rvAdd rvGet
  cases hk : dictGet rv k with
  | none => simp [dictGet_append, dictGet_cons, dictGet_nil, Ne.symm h]
  | some s => simp [dictGet_dictInsert_ne _ _ _ _ h]

theorem mem_rvGet_rvAdd (rv : RV) (k k2 : String) (x y : String) (h : y ∈ rvGet rv k2) :
    y ∈ rvGet (rvAdd rv k x) k2 := by
  by_cases hk : k2 = k
  · subst hk
    rw [rvGet_rvAdd_self, mem_setAdd]
    exact Or.inl h
  · rwa [rvGet_rvAdd_ne _ _ _ _ hk]

theorem mem_rvGet_rvUpdate (rv : RV) (k k2 : String) (xs : List String) (y : String)
    (h : y ∈ rvGet rv k2) : y ∈ rvGet (rvUpdate rv k xs) k2 := by
  by_cases hk : k2 = k
  · subst hk
    rw [rvGet_rvUpdate_self, mem_setUpdate]
    exact Or.inl h
  · rwa [rvGet_rvUpdate_ne _ _ _ _ hk]

theorem mem_rvGet_fkFold (ent : String) (fks : List (String × String)) (rv : RV)
    (k2 y : String) (h : y ∈ rvGet rv k2) : y ∈ rvGet (fkFold ent fks rv) k2 := by
  induction fks generalizing rv with
  | nil => exact h
  | cons pr rest ih =>
    unfold fkFold
    simp only [List.foldl_cons]
    by_cases hc : pr.1 ∈ rvGet rv ent
    · rw [if_pos hc]
      exact ih _ (mem_rvGet_rvAdd rv pr.2 k2 "id" y h)
    · rw [if_neg hc]
      exact ih rv h

theorem mem_rvGet_fkFold_inv (ent : String) (fks : List (String × String)) (rv : RV)
    (k2 y : String) (h : y ∈ rvGet (fkFold ent fks rv) k2) :
    y ∈ rvGet rv k2 ∨ y = "id" := by
  induction fks generalizing rv with
  | nil => exact Or.inl h
  | cons pr rest ih =>
    unfold fkFold at h
    simp only [List.foldl_cons] at h
    by_cases hc : pr.1 ∈ rvGet rv ent
    · rw [if_pos hc] at h
      rcases ih (rvAdd rv pr.2 "id") h with h2 | h2
      · by_cases hk : k2 = pr.2
        · subst hk
          rw [rvGet_rvAdd_self, mem_setAdd] at h2
          rcases h2 with h3 | h3
          · exact Or.inl h3
          · exact Or.inr h3
        · rw [rvGet_rvAdd_ne _ _ _ _ hk] at h2
          exact Or.inl h2
      · exact Or.inr h2
    · rw [if_neg hc] at h
      exact ih rv h

theorem fkFold_fires (ent : String) (fks : List (String × String)) (rv : RV)
    (x b : String) (hmem : (x, b) ∈ fks) (hx : x ∈ rvGet rv ent) :
    "id" ∈ rvGet (fkFold ent fks rv) b := by
  induction fks generalizing rv with
  | nil => cases hmem
  | cons pr rest ih =>
    unfold fkFold
    simp only [List.foldl_cons]
    rcases List.mem_cons.mp hmem with rfl | hmem2
    · rw [if_pos hx]
      have hid : "id" ∈ rvGet (rvAdd rv b "id") b := by
        rw [rvGet_rvAdd_self, mem_setAdd]
        exact Or.inr rfl
      exact mem_rvGet_fkFold ent rest _ b "id" hid
    · by_cases hc : pr.1 ∈ rvGet rv ent
      · rw [if_pos hc]
        exact ih _ hmem2 (mem_rvGet_rvAdd rv pr.2 ent "id" x hx)
      · rw [if_neg hc]
        exact ih rv hmem2 hx

theorem dictGet_mem {α : Type} (m : List (String × α)) (k : String) (v : α)
    (h : dictGet m k = some v) : (k, v) ∈ m := by
  unfold dictGet at h
  cases hf : m.find? (fun p => p.1 == k) with
  | none => rw [hf] at h; cases h
  | some p =>
    rw [hf] at h
    have hp : p.1 = k := by simpa using List.find?_some hf
    have hv : p.2 = v := by simpa using h
    have : p = (k, v) := by
      cases p
      simp_all
    exact this ▸ List.mem_of_find?_eq_some hf

theorem mem_depNames (g : Graph) (x : String) (vd : VariableDependency)
    (hmem : (x, vd) ∈ g) (d : String) (hd : d ∈ vd.dependencies) : d ∈ depNames g := by
  induction g with
  | nil => cases hmem
  | cons pr rest ih =>
    unfold depNames
    simp only [List.foldr_cons]
    rcases List.mem_cons.mp hmem with rfl | h2
    · exact List.mem_append_left _ hd
    · exact List.mem_append_right _ (ih h2)

/-! Termination of the worklist traversal. -/

/-- Decreasing measure of one worklist state: pending pops plus twice the
dependency names not yet in the required set of the traversed entity. -/
def wMeasure (g : Graph) (ent : String) (rv : RV) (tp : List String) : Nat :=
  tp.length + 2 * ((depNames g).toFinset \ (rvGet rv ent).toFinset).card

theorem wMeasure_le_workFuel (g : Graph) (ent : String) (rv : RV) (tp : List String) :
    wMeasure g ent rv tp ≤ workFuel g tp := by
  unfold wMeasure workFuel
  have h1 : ((depNames g).toFinset \ (rvGet rv ent).toFinset).card ≤ (depNames g).length :=
    le_trans (Finset.card_le_card Finset.sdiff_subset) (List.toFinset_card_le _)
  omega

theorem runWorklist_step_measure (g : Graph) (ent : String) (rv : RV) (x : String)
    (rest : List String) (vd : VariableDependency) (hg : dictGet g x = some vd) :
    wMeasure g ent
        (fkFold ent vd.foreign_keys (rvUpdate rv ent vd.dependencies))
        ((vd.dependencies.filter (fun d => !((rvGet rv ent).contains d))).foldl setAdd rest)
      < wMeasure g ent rv (x :: rest) := by
  obtain ⟨t, ht1, ht2, ht3⟩ :=
    foldl_setAdd_exists (vd.dependencies.filter (fun d => !((rvGet rv ent).contains d))) rest
  have htSub : ∀ y ∈ t, y ∈ vd.dependencies ∧ y ∉ rvGet rv ent := by
    intro y hy
    have h := (ht3 y hy).1
    rw [List.mem_filter] at h
    refine ⟨h.1, ?_⟩
    simpa using h.2
  -- the new required set contains the old one and all of t
  have hmono : ∀ y, y ∈ rvGet rv ent →
      y ∈ rvGet (fkFold ent vd.foreign_keys (rvUpdate rv ent vd.dependencies)) ent := by
    intro y hy
    exact mem_rvGet_fkFold _ _ _ _ _ (mem_rvGet_rvUpdate _ _ _ _ _ hy)
  have htIn : ∀ y ∈ t,
      y ∈ rvGet (fkFold ent vd.foreign_keys (rvUpdate rv ent vd.dependencies)) ent := by
    intro y hy
    apply mem_rvGet_fkFold
    rw [rvGet_rvUpdate_self, mem_setUpdate]
    exact Or.inr (htSub y hy).1
  -- Finset bookkeeping
  have htA : t.toFinset ⊆ (depNames g).toFinset \ (rvGet rv ent).toFinset := by
    intro y hy
    rw [List.mem_toFinset] at hy
    rw [Finset.mem_sdiff, List.mem_toFinset, List.mem_toFinset]
    exact ⟨mem_depNames g x vd (dictGet_mem _ _ _ hg) y (htSub y hy).1, (htSub y hy).2⟩
  have hsub : (depNames g).toFinset \
      (rvGet (fkFold ent vd.foreign_keys (rvUpdate rv ent vd.dependencies)) ent).toFinset ⊆
      ((depNames g).toFinset \ (rvGet rv ent).toFinset) \ t.toFinset := by
    intro y hy
    rw [Finset.mem_sdiff] at hy
    obtain ⟨hyA, hyB⟩ := hy
    rw [Finset.mem_sdiff, Finset.mem_sdiff]
    refine ⟨⟨hyA, fun hmem => ?_⟩, fun hmem => ?_⟩
    · rw [List.mem_toFinset] at hmem
      exact hyB (List.mem_toFinset.mpr (hmono y hmem))
    · rw [List.mem_toFinset] at hmem
      exact hyB (List.mem_toFinset.mpr (htIn y hmem))
  have hcard1 : (((depNames g).toFinset \ (rvGet rv ent).toFinset) \ t.toFinset).card =
      ((depNames g).toFinset \ (rvGet rv ent).toFinset).card - t.toFinset.card :=
    Finset.card_sdiff htA
  have hcard2 : t.toFinset.card = t.length := List.toFinset_card_of_nodup ht2
  have hcard3 : t.toFinset.card ≤ ((depNames g).toFinset \ (rvGet rv ent).toFinset).card :=
    Finset.card_le_card htA
  have hcard4 : ((depNames g).toFinset \
      (rvGet (fkFold ent vd.foreign_keys (rvUpdate rv ent vd.dependencies)) ent).toFinset).card ≤
      ((depNames g).toFinset \ (rvGet rv ent).toFinset).card - t.length := by
    rw [← hcard2, ← hcard1]
    exact Finset.card_le_card hsub
  have hlen : ((vd.dependencies.filter
      (fun d => !((rvGet rv ent).contains d))).foldl setAdd rest).length =
      rest.length + t.length := by
    rw [ht1, List.length_append]
  unfold wMeasure
  rw [hlen]
  simp only [List.length_cons]
  omega

theorem runWorklist_complete (fuel : Nat) (g : Graph) (ent : String) (rv : RV)
    (tp : List String) (h : wMeasure g ent rv tp ≤ fuel) :
    (runWorklist fuel g ent rv tp).2 = [] := by
  induction fuel generalizing rv tp with
  | zero =>
    have : tp.length = 0 := by
      unfold wMeasure at h
      omega
    rw [List.length_eq_zero.mp this]
    rfl
  | succ f ih =>
    cases tp with
    | nil => rfl
    | cons x rest =>
      show (match dictGet g x with
        | Option.none => runWorklist f g ent rv rest
        | some vd =>
          runWorklist f g ent
            (fkFold ent vd.foreign_keys (rvUpdate rv ent vd.dependencies))
            ((vd.dependencies.filter (fun d => !((rvGet rv ent).contains d))).foldl setAdd rest)).2 = []
      cases hg : dictGet g x with
      | none =>
        apply ih
        unfold wMeasure at h ⊢
        simp only [List.length_cons] at h
        omega
      | some vd =>
        apply ih
        have := runWorklist_step_measure g ent rv x rest vd hg
        omega

/-! Equation lemmas for runWorklist. -/

theorem runWorklist_zero (g : Graph) (ent : String) (rv : RV) (tp : List String) :
    runWorklist 0 g ent rv tp = (rv, tp) := rfl

theorem runWorklist_succ_nil (f : Nat) (g : Graph) (ent : String) (rv : RV) :
    runWorklist (Nat.succ f) g ent rv [] = (rv, []) := rfl

theorem runWorklist_succ_cons_none (f : Nat) (g : Graph) (ent : String) (rv : RV)
    (x : String) (rest : List String) (h : dictGet g x = Option.none) :
    runWorklist (Nat.succ f) g ent rv (x :: rest) = runWorklist f g ent rv rest := by
  show (match dictGet g x with
    | Option.none => runWorklist f g ent rv rest
    | some vd =>
      runWorklist f g ent
        (fkFold ent vd.foreign_keys (rvUpdate rv ent vd.dependencies))
        ((vd.dependencies.filter (fun d => !((rvGet rv ent).contains d))).foldl setAdd rest)) =
    runWorklist f g ent rv rest
  rw [h]

theorem runWorklist_succ_cons_some (f : Nat) (g : Graph) (ent : String) (rv : RV)
    (x : String) (rest : List String) (vd : VariableDependency)
    (h : dictGet g x = some vd) :
    runWorklist (Nat.succ f) g ent rv (x :: rest) =
      runWorklist f g ent
        (fkFold ent vd.foreign_keys (rvUpdate rv ent vd.dependencies))
        ((vd.dependencies.filter (fun d => !((rvGet rv ent).contains d))).foldl setAdd rest) := by
  show (match dictGet g x with
    | Option.none => runWorklist f g ent rv rest
    | some vd =>
      runWorklist f g ent
        (fkFold ent vd.foreign_keys (rvUpdate rv ent vd.dependencies))
        ((vd.dependencies.filter (fun d => !((rvGet rv ent).contains d))).foldl setAdd rest)) = _
  rw [h]

theorem runWorklist_mono (fuel : Nat) (g : Graph) (ent : String) (rv : RV)
    (tp : List String) (k y : String) (h : y ∈ rvGet rv k) :
    y ∈ rvGet (runWorklist fuel g ent rv tp).1 k := by
  induction fuel generalizing rv tp with
  | zero => exact h
  | succ f ih =>
    cases tp with
    | nil => exact h
    | cons x rest =>
      cases hg : dictGet g x with
      | none =>
        rw [runWorklist_succ_cons_none f g ent rv x rest hg]
        exact ih rv rest h
      | some vd =>
        rw [runWorklist_succ_cons_some f g ent rv x rest vd hg]
        exact ih _ _ (mem_rvGet_fkFold _ _ _ _ _ (mem_rvGet_rvUpdate _ _ _ _ _ h))

theorem runWorklist_other (fuel : Nat) (g : Graph) (ent : String) (rv : RV)
    (tp : List String) (k : String) (hk : k ≠ ent) (y : String)
    (h : y ∈ rvGet (runWorklist fuel g ent rv tp).1 k) :
    y ∈ rvGet rv k ∨ y = "id" := by
  induction fuel generalizing rv tp with
  | zero => exact Or.inl h
  | succ f ih =>
    cases tp with
    | nil => exact Or.inl h
    | cons x rest =>
      cases hg : dictGet g x with
      | none =>
        rw [runWorklist_succ_cons_none f g ent rv x rest hg] at h
        exact ih rv rest h
      | some vd =>
        rw [runWorklist_succ_cons_some f g ent rv x rest vd hg] at h
        rcases ih _ _ h with h2 | h2
        · rcases mem_rvGet_fkFold_inv _ _ _ _ _ h2 with h3 | h3
          · rw [rvGet_rvUpdate_ne _ _ _ _ hk] at h3
            exact Or.inl h3
          · exact Or.inr h3
        · exact Or.inr h2

/-! Closure invariants of one worklist traversal. -/

/-- Closedness of an entity required set under dependency edges, except
possibly at the literal id (which foreign-key expansion adds without
enqueueing). -/
def entClosedExcept (g : Graph) (s : List String) : Prop :=
  ∀ x ∈ s, x = "id" ∨ ∀ vd, dictGet g x = some vd → ∀ d ∈ vd.dependencies, d ∈ s

theorem runWorklist_winv (fuel : Nat) (g : Graph) (ent : String) (rv : RV)
    (tp : List String)
    (hinv : ∀ x ∈ rvGet rv ent, x ∈ tp ∨ x = "id" ∨
      (∀ vd, dictGet g x = some vd → ∀ d ∈ vd.dependencies, d ∈ rvGet rv ent)) :
    ∀ x ∈ rvGet (runWorklist fuel g ent rv tp).1 ent,
      x ∈ (runWorklist fuel g ent rv tp).2 ∨ x = "id" ∨
      (∀ vd, dictGet g x = some vd → ∀ d ∈ vd.dependencies,
        d ∈ rvGet (runWorklist fuel g ent rv tp).1 ent) := by
  induction fuel generalizing rv tp with
  | zero => exact hinv
  | succ f ih =>
    cases tp with
    | nil =>
      rw [runWorklist_succ_nil]
      intro x hx
      rcases hinv x hx with h | h | h
      · cases h
      · exact Or.inr (Or.inl h)
      · exact Or.inr (Or.inr h)
    | cons x0 rest =>
      cases hg : dictGet g x0 with
      | none =>
        rw [runWorklist_succ_cons_none f g ent rv x0 rest hg]
        apply ih
        intro y hy
        rcases hinv y hy with h | h | h
        · rcases List.mem_cons.mp h with rfl | h2
          · refine Or.inr (Or.inr ?_)
            intro vd hvd
            rw [hg] at hvd
            cases hvd
          · exact Or.inl h2
        · exact Or.inr (Or.inl h)
        · exact Or.inr (Or.inr h)
      | some vd =>
        rw [runWorklist_succ_cons_some f g ent rv x0 rest vd hg]
        apply ih
        intro y hy
        have hmono2 : ∀ z, z ∈ rvGet rv ent →
            z ∈ rvGet (fkFold ent vd.foreign_keys (rvUpdate rv ent vd.dependencies)) ent :=
          fun z hz => mem_rvGet_fkFold _ _ _ _ _ (mem_rvGet_rvUpdate _ _ _ _ _ hz)
        have hdeps : ∀ z, z ∈ vd.dependencies →
            z ∈ rvGet (fkFold ent vd.foreign_keys (rvUpdate rv ent vd.dependencies)) ent := by
          intro z hz
          apply mem_rvGet_fkFold
          rw [rvGet_rvUpdate_self, mem_setUpdate]
          exact Or.inr hz
        rcases mem_rvGet_fkFold_inv _ _ _ _ _ hy with h2 | h2
        · rw [rvGet_rvUpdate_self, mem_setUpdate] at h2
          have hreqCase : y ∈ rvGet rv ent →
              y ∈ (vd.dependencies.filter
                  (fun d => !((rvGet rv ent).contains d))).foldl setAdd rest ∨
              y = "id" ∨
              (∀ vd2, dictGet g y = some vd2 → ∀ d ∈ vd2.dependencies,
                d ∈ rvGet (fkFold ent vd.foreign_keys (rvUpdate rv ent vd.dependencies)) ent) := by
            intro hyreq
            rcases hinv y hyreq with h3 | h3 | h3
            · rcases List.mem_cons.mp h3 with rfl | h4
              · refine Or.inr (Or.inr ?_)
                intro vd2 hvd2 d hd
                rw [hg] at hvd2
                injection hvd2 with hvd2
                subst hvd2
                exact hdeps d hd
              · exact Or.inl ((mem_foldl_setAdd _ _ _).mpr (Or.inl h4))
            · exact Or.inr (Or.inl h3)
            · exact Or.inr (Or.inr (fun vd2 hvd2 d hd => hmono2 d (h3 vd2 hvd2 d hd)))
          rcases h2 with h2 | h2
          · exact hreqCase h2
          · by_cases hyreq : y ∈ rvGet rv ent
            · exact hreqCase hyreq
            · refine Or.inl ((mem_foldl_setAdd _ _ _).mpr (Or.inr ?_))
              rw [List.mem_filter]
              refine ⟨h2, ?_⟩
              simpa using hyreq
        · exact Or.inr (Or.inl h2)

theorem runWorklist_closed (g : Graph) (ent : String) (rv : RV) :
    entClosedExcept g (rvGet (runWorklist (workFuel g (rvGet rv ent)) g ent rv
      (rvGet rv ent)).1 ent) := by
  have hcomp := runWorklist_complete (workFuel g (rvGet rv ent)) g ent rv (rvGet rv ent)
    (wMeasure_le_workFuel g ent rv (rvGet rv ent))
  have hinv := runWorklist_winv (workFuel g (rvGet rv ent)) g ent rv (rvGet rv ent)
    (fun x hx => Or.inl hx)
  intro x hx
  rcases hinv x hx with h | h | h
  · rw [hcomp] at h
    cases h
  · exact Or.inl h
  · exact Or.inr h

/-! The traversal over the snapshot of entities. -/

theorem traverseStep_fst (g : Graph) (st : RV × List String) (ent : String) :
    (traverseStep g st ent).1 =
      (runWorklist (workFuel g (rvGet st.1 ent)) g ent st.1 (rvGet st.1 ent)).1 := rfl

theorem traverseStep_snd (g : Graph) (st : RV × List String) (ent : String) :
    (traverseStep g st ent).2 = st.2 := by
  show st.2 ++ (runWorklist (workFuel g (rvGet st.1 ent)) g ent st.1 (rvGet st.1 ent)).2 = st.2
  rw [runWorklist_complete _ _ _ _ _ (wMeasure_le_workFuel g ent st.1 (rvGet st.1 ent))]
  simp

theorem traverseFold_snd (g : Graph) (keys : List String) (st : RV × List String) :
    (keys.foldl (traverseStep g) st).2 = st.2 := by
  induction keys generalizing st with
  | nil => rfl
  | cons k rest ih =>
    rw [List.foldl_cons, ih, traverseStep_snd]

theorem traverseFold_mono (g : Graph) (keys : List String) (st : RV × List String)
    (k y : String) (h : y ∈ rvGet st.1 k) :
    y ∈ rvGet (keys.foldl (traverseStep g) st).1 k := by
  induction keys generalizing st with
  | nil => exact h
  | cons k0 rest ih =>
    rw [List.foldl_cons]
    apply ih
    rw [traverseStep_fst]
    exact runWorklist_mono _ _ _ _ _ _ _ h

theorem entClosedExcept_preserved (g : Graph) (ent : String) (st : RV × List String)
    (k : String) (hk : k ≠ ent) (h : entClosedExcept g (rvGet st.1 ent)) :
    entClosedExcept g (rvGet (traverseStep g st k).1 ent) := by
  intro x hx
  rw [traverseStep_fst] at hx
  rcases runWorklist_other _ _ _ _ _ ent (fun hh => hk hh.symm) x hx with h2 | h2
  · rcases h x h2 with h3 | h3
    · exact Or.inl h3
    · refine Or.inr ?_
      intro vd hvd d hd
      rw [traverseStep_fst]
      exact runWorklist_mono _ _ _ _ _ _ _ (h3 vd hvd d hd)
  · exact Or.inl h2

theorem traverseFold_preserve (g : Graph) (ent : String) (keys : List String)
    (st : RV × List String) (hk : ent ∉ keys) (h : entClosedExcept g (rvGet st.1 ent)) :
    entClosedExcept g (rvGet (keys.foldl (traverseStep g) st).1 ent) := by
  induction keys generalizing st with
  | nil => exact h
  | cons k rest ih =>
    rw [List.foldl_cons]
    have hne : k ≠ ent := fun hh => hk (hh ▸ List.mem_cons_self k rest)
    exact ih (traverseStep g st k) (fun hh => hk (List.mem_cons_of_mem k hh))
      (entClosedExcept_preserved g ent st k hne h)

theorem mem_split_last {a : String} {l : List String} (h : a ∈ l) :
    ∃ s t, l = s ++ a :: t ∧ a ∉ t := by
  induction l with
  | nil => cases h
  | cons b rest ih =>
    by_cases hr : a ∈ rest
    · obtain ⟨s, t, h1, h2⟩ := ih hr
      exact ⟨b :: s, t, by rw [h1]; rfl, h2⟩
    · rcases List.mem_cons.mp h with rfl | h2
      · exact ⟨[], rest, rfl, hr⟩
      · cases hr h2

theorem traverseFold_closed (g : Graph) (ent : String) (keys : List String)
    (st : RV × List String) (hent : ent ∈ keys) :
    entClosedExcept g (rvGet (keys.foldl (traverseStep g) st).1 ent) := by
  obtain ⟨s, t, rfl, hnot⟩ := mem_split_last hent
  rw [List.foldl_append, List.foldl_cons]
  apply traverseFold_preserve g ent t _ hnot
  rw [traverseStep_fst]
  exact runWorklist_closed g ent _

/-! Reachability along dependency edges, and the closure theorem. -/

/-- Names reachable from the seed names by following input_variables edges
through the dependency graph. -/
inductive Reach (g : Graph) (seeds : List String) : String → Prop where
  | seed (n : String) (h : n ∈ seeds) : Reach g seeds n
  | step (n d : String) (vd : VariableDependency) (h1 : Reach g seeds n)
      (h2 : dictGet g n = some vd) (h3 : d ∈ vd.dependencies) : Reach g seeds d

theorem reach_subset (g : Graph) (seeds : List String) (s : List String)
    (hseed : ∀ n ∈ seeds, n ∈ s)
    (hclosed : ∀ x ∈ s, ∀ vd, dictGet g x = some vd → ∀ d ∈ vd.dependencies, d ∈ s)
    (n : String) (h : Reach g seeds n) : n ∈ s := by
  induction h with
  | seed n hn => exact hseed n hn
  | step n d vd h1 h2 h3 ih => exact hclosed n ih vd h2 d h3

/-- C9: the worklist traversal of get_required_variables terminates for
every finite project whose dependency graph builds, including projects
whose input_variables declare true cycles among different names: every
entity worklist reaches the empty state within the computed fuel (the set
difference taken before enqueueing lets each name be enqueued, popped and
processed at most once per traversal), so no leftover work remains. -/
theorem worklist_traversal_terminates (p : Project)
    (ro : List (String × List String)) (pin : List (String × List (String × Value)))
    (g : Graph) (hg : buildDependencyGraph p = Except.ok g) :
    getRequiredLeftovers p ro pin = Except.ok [] := by
  unfold getRequiredLeftovers
  rw [hg]
  show Except.ok (traverseAll g (seedRequired ro pin)).2 = Except.ok []
  unfold traverseAll
  rw [traverseFold_snd]

/-- Witness for C9 at the concrete Customer/Order project: the traversal
completes with no leftover worklist items. -/
theorem worklist_traversal_terminates_witness :
    getRequiredLeftovers pullerProject [("Customer", ["credit_score"])]
      [("Customer", [("id", Value.vstr "123")])] = Except.ok [] :=
  worklist_traversal_terminates pullerProject _ _ _ rfl

/-- C1 (amended): provided the graph entry named id (the only name that
foreign-key expansion adds to a required set without enqueueing it) has no
dependencies of its own, the mapping returned by get_required_variables
contains, for each entity named in requested_outputs or provided_inputs,
every name reachable from the requested names and provided input
keys along input_variables edges; and on the concrete Customer/Order
project, requesting credit_score with provided input id yields exactly
the required set credit_score, id, age, income for Customer. -/
theorem resolve_required_closure :
    (∀ (p : Project) (ro : List (String × List String))
        (pin : List (String × List (String × Value))) (g : Graph) (rv : RV),
      buildDependencyGraph p = Except.ok g →
      getRequiredVariables p ro pin = Except.ok rv →
      (∀ vd, dictGet g "id" = some vd → vd.dependencies = []) →
      ∀ ent, ent ∈ (seedRequired ro pin).map Prod.fst →
      ∀ n, Reach g (rvGet (seedRequired ro pin) ent) n → n ∈ rvGet rv ent) ∧
    getRequiredVariables pullerProject [("Customer", ["credit_score"])]
        [("Customer", [("id", Value.vstr "123")])] =
      Except.ok [("Customer", ["credit_score", "id", "age", "income"])] := by
  constructor
  · intro p ro pin g rv hg hrv hid ent hent n hreach
    have hrv2 : (traverseAll g (seedRequired ro pin)).1 = rv := by
      unfold getRequiredVariables at hrv
      rw [hg] at hrv
      injection hrv
    rw [← hrv2]
    unfold traverseAll
    have hclosedE := traverseFold_closed g ent ((seedRequired ro pin).map Prod.fst)
      (seedRequired ro pin, []) hent
    refine reach_subset g _ _ ?_ ?_ n hreach
    · intro m hm
      exact traverseFold_mono g _ _ ent m hm
    · intro x hx vd hvd d hd
      rcases hclosedE x hx with h2 | h2
      · subst h2
        rw [hid vd hvd] at hd
        cases hd
      · exact h2 vd hvd d hd
  · rfl

/-- Witness for C1 at the concrete project: income is reachable from the
requested credit_score, and indeed lands in the computed required set. -/
theorem resolve_required_closure_witness :
    "income" ∈ rvGet [("Customer", ["credit_score", "id", "age", "income"])] "Customer" := by
  refine resolve_required_closure.1 pullerProject [("Customer", ["credit_score"])]
    [("Customer", [("id", Value.vstr "123")])] _
    [("Customer", ["credit_score", "id", "age", "income"])] rfl rfl
    (by decide) "Customer" (by decide) "income" ?_
  refine Reach.step "credit_score" "income" _ (Reach.seed "credit_score" (by decide)) rfl
    (by decide)

/-- Counterexample to C1 as stated: in c1Proj the name secret is reachable
from the requested names of entity A (u depends on id, id depends on
secret), yet the returned mapping for A misses it, because id entered the
required set through foreign-key expansion without ever being enqueued. -/
theorem resolve_required_closure_counterexample :
    getRequiredVariables c1Proj [("A", ["fk_v", "u"])] [] =
      Except.ok [("A", ["fk_v", "u", "id"])] ∧
    "secret" ∉ rvGet [("A", ["fk_v", "u", "id"])] "A" ∧
    ∃ g, buildDependencyGraph c1Proj = Except.ok g ∧
      Reach g (rvGet (seedRequired [("A", ["fk_v", "u"])] []) "A") "secret" :=
  ⟨rfl, by decide,
    ⟨_, rfl,
      Reach.step "id" "secret" _
        (Reach.step "u" "id" _ (Reach.seed "u" (by decide)) rfl (by decide))
        rfl (by decide)⟩⟩

/-! Foreign-key firing invariant of the traversal. -/

theorem runWorklist_fkinv (fuel : Nat) (g : Graph) (ent : String) (rv : RV)
    (tp : List String)
    (hsub : ∀ y ∈ tp, y ∈ rvGet rv ent)
    (hinv : ∀ x ∈ rvGet rv ent, x ∈ tp ∨ x = "id" ∨
      (∀ vd, dictGet g x = some vd → ∀ pr ∈ vd.foreign_keys, pr.1 = x →
        "id" ∈ rvGet rv pr.2)) :
    ∀ x ∈ rvGet (runWorklist fuel g ent rv tp).1 ent,
      x ∈ (runWorklist fuel g ent rv tp).2 ∨ x = "id" ∨
      (∀ vd, dictGet g x = some vd → ∀ pr ∈ vd.foreign_keys, pr.1 = x →
        "id" ∈ rvGet (runWorklist fuel g ent rv tp).1 pr.2) := by
  induction fuel generalizing rv tp with
  | zero => exact hinv
  | succ f ih =>
    cases tp with
    | nil =>
      rw [runWorklist_succ_nil]
      intro x hx
      rcases hinv x hx with h | h | h
      · cases h
      · exact Or.inr (Or.inl h)
      · exact Or.inr (Or.inr h)
    | cons x0 rest =>
      cases hg : dictGet g x0 with
      | none =>
        rw [runWorklist_succ_cons_none f g ent rv x0 rest hg]
        apply ih
        · exact fun y hy => hsub y (List.mem_cons_of_mem x0 hy)
        · intro y hy
          rcases hinv y hy with h | h | h
          · rcases List.mem_cons.mp h with rfl | h2
            · refine Or.inr (Or.inr ?_)
              intro vd hvd
              rw [hg] at hvd
              cases hvd
            · exact Or.inl h2
          · exact Or.inr (Or.inl h)
          · exact Or.inr (Or.inr h)
      | some vd =>
        rw [runWorklist_succ_cons_some f g ent rv x0 rest vd hg]
        have hmono2 : ∀ k z, z ∈ rvGet rv k →
            z ∈ rvGet (fkFold ent vd.foreign_keys (rvUpdate rv ent vd.dependencies)) k :=
          fun k z hz => mem_rvGet_fkFold _ _ _ _ _ (mem_rvGet_rvUpdate _ _ _ _ _ hz)
        have hdeps : ∀ z, z ∈ vd.dependencies →
            z ∈ rvGet (fkFold ent vd.foreign_keys (rvUpdate rv ent vd.dependencies)) ent := by
          intro z hz
          apply mem_rvGet_fkFold
          rw [rvGet_rvUpdate_self, mem_setUpdate]
          exact Or.inr hz
        apply ih
        · intro y hy
          rcases (mem_foldl_setAdd _ _ _).mp hy with h2 | h2
          · exact hmono2 ent y (hsub y (List.mem_cons_of_mem x0 h2))
          · exact hdeps y (List.mem_filter.mp h2).1
        · intro y hy
          have hreqCase : y ∈ rvGet rv ent →
              y ∈ (vd.dependencies.filter
                  (fun d => !((rvGet rv ent).contains d))).foldl setAdd rest ∨
              y = "id" ∨
              (∀ vd2, dictGet g y = some vd2 → ∀ pr ∈ vd2.foreign_keys, pr.1 = y →
                "id" ∈ rvGet (fkFold ent vd.foreign_keys
                  (rvUpdate rv ent vd.dependencies)) pr.2) := by
            intro hyreq
            rcases hinv y hyreq with h3 | h3 | h3
            · rcases List.mem_cons.mp h3 with rfl | h4
              · refine Or.inr (Or.inr ?_)
                intro vd2 hvd2 pr hpr hpr1
                rw [hg] at hvd2
                injection hvd2 with hvd2
                subst hvd2
                have hx0in : y ∈ rvGet (rvUpdate rv ent vd.dependencies) ent :=
                  mem_rvGet_rvUpdate _ _ _ _ _ hyreq
                have hfk : (y, pr.2) ∈ vd.foreign_keys := by
                  have : pr = (y, pr.2) := by
                    cases pr
                    simp_all
                  rw [← this]
                  exact hpr
                exact fkFold_fires ent vd.foreign_keys _ y pr.2 hfk hx0in
              · exact Or.inl ((mem_foldl_setAdd _ _ _).mpr (Or.inl h4))
            · exact Or.inr (Or.inl h3)
            · exact Or.inr (Or.inr
                (fun vd2 hvd2 pr hpr hpr1 => hmono2 pr.2 "id" (h3 vd2 hvd2 pr hpr hpr1)))
          rcases mem_rvGet_fkFold_inv _ _ _ _ _ hy with h2 | h2
          · rw [rvGet_rvUpdate_self, mem_setUpdate] at h2
            rcases h2 with h2 | h2
            · exact hreqCase h2
            · by_cases hyreq : y ∈ rvGet rv ent
              · exact hreqCase hyreq
              · refine Or.inl ((mem_foldl_setAdd _ _ _).mpr (Or.inr ?_))
                rw [List.mem_filter]
                refine ⟨h2, ?_⟩
                simpa using hyreq
          · exact Or.inr (Or.inl h2)

/-- Foreign-key closedness of the traversed entity, except possibly at the
literal id. -/
def entFkExcept (g : Graph) (rv : RV) (ent : String) : Prop :=
  ∀ x ∈ rvGet rv ent, x = "id" ∨
    ∀ vd, dictGet g x = some vd → ∀ pr ∈ vd.foreign_keys, pr.1 = x →
      "id" ∈ rvGet rv pr.2

theorem runWorklist_fkdone (g : Graph) (ent : String) (rv : RV) :
    entFkExcept g
      (runWorklist (workFuel g (rvGet rv ent)) g ent rv (rvGet rv ent)).1 ent := by
  have hcomp := runWorklist_complete (workFuel g (rvGet rv ent)) g ent rv (rvGet rv ent)
    (wMeasure_le_workFuel g ent rv (rvGet rv ent))
  have hinv := runWorklist_fkinv (workFuel g (rvGet rv ent)) g ent rv (rvGet rv ent)
    (fun y hy => hy) (fun x hx => Or.inl hx)
  intro x hx
  rcases hinv x hx with h | h | h
  · rw [hcomp] at h
    cases h
  · exact Or.inl h
  · exact Or.inr h

theorem entFkExcept_preserved (g : Graph) (ent : String) (st : RV × List String)
    (k : String) (hk : k ≠ ent) (h : entFkExcept g st.1 ent) :
    entFkExcept g (traverseStep g st k).1 ent := by
  intro x hx
  rw [traverseStep_fst] at hx
  rcases runWorklist_other _ _ _ _ _ ent (fun hh => hk hh.symm) x hx with h2 | h2
  · rcases h x h2 with h3 | h3
    · exact Or.inl h3
    · refine Or.inr ?_
      intro vd hvd pr hpr hpr1
      rw [traverseStep_fst]
      exact runWorklist_mono _ _ _ _ _ _ _ (h3 vd hvd pr hpr hpr1)
  · exact Or.inl h2

theorem traverseFold_fk_preserve (g : Graph) (ent : String) (keys : List String)
    (st : RV × List String) (hk : ent ∉ keys) (h : entFkExcept g st.1 ent) :
    entFkExcept g (keys.foldl (traverseStep g) st).1 ent := by
  induction keys generalizing st with
  | nil => exact h
  | cons k rest ih =>
    rw [List.foldl_cons]
    have hne : k ≠ ent := fun hh => hk (hh ▸ List.mem_cons_self k rest)
    exact ih (traverseStep g st k) (fun hh => hk (List.mem_cons_of_mem k hh))
      (entFkExcept_preserved g ent st k hne h)

theorem traverseFold_fk_closed (g : Graph) (ent : String) (keys : List String)
    (st : RV × List String) (hent : ent ∈ keys) :
    entFkExcept g (keys.foldl (traverseStep g) st).1 ent := by
  obtain ⟨s, t, rfl, hnot⟩ := mem_split_last hent
  rw [List.foldl_append, List.foldl_cons]
  apply traverseFold_fk_preserve g ent t _ hnot
  rw [traverseStep_fst]
  exact runWorklist_fkdone g ent _

/-- C2 (amended): provided the graph entry named id carries no foreign-key
metadata, then for every entity named in the request, every variable V in
the computed required set of that entity whose graph entry declares a
foreign key to entity B puts the literal id into the required set of B —
even when B is
nowhere in the request; and the concrete Order/Customer scenario returns
Order amount, customer_id and Customer id. -/
theorem fk_expansion_adds_id :
    (∀ (p : Project) (ro : List (String × List String))
        (pin : List (String × List (String × Value))) (g : Graph) (rv : RV),
      buildDependencyGraph p = Except.ok g →
      getRequiredVariables p ro pin = Except.ok rv →
      (∀ vd, dictGet g "id" = some vd → vd.foreign_keys = []) →
      ∀ ent, ent ∈ (seedRequired ro pin).map Prod.fst →
      ∀ v vd b, v ∈ rvGet rv ent → dictGet g v = some vd →
        (v, b) ∈ vd.foreign_keys → "id" ∈ rvGet rv b) ∧
    getRequiredVariables pullerProject [("Order", ["amount"])]
        [("Order", [("customer_id", Value.vstr "123")])] =
      Except.ok [("Order", ["amount", "customer_id"]), ("Customer", ["id"])] := by
  constructor
  · intro p ro pin g rv hg hrv hid ent hent v vd b hv hvd hfk
    have hrv2 : (traverseAll g (seedRequired ro pin)).1 = rv := by
      unfold getRequiredVariables at hrv
      rw [hg] at hrv
      injection hrv
    rw [← hrv2] at hv ⊢
    unfold traverseAll at hv ⊢
    have hfkE := traverseFold_fk_closed g ent ((seedRequired ro pin).map Prod.fst)
      (seedRequired ro pin, []) hent
    rcases hfkE v hv with h | h
    · subst h
      rw [hid vd hvd] at hfk
      cases hfk
    · exact h vd hvd (v, b) hfk rfl
  · rfl

/-- Witness for C2 at the concrete project: customer_id (a foreign key to
Customer) is required for Order, so id lands in the Customer set. -/
theorem fk_expansion_adds_id_witness :
    "id" ∈ rvGet [("Order", ["amount", "customer_id"]), ("Customer", ["id"])] "Customer" :=
  fk_expansion_adds_id.1 pullerProject [("Order", ["amount"])]
    [("Order", [("customer_id", Value.vstr "123")])] _
    [("Order", ["amount", "customer_id"]), ("Customer", ["id"])] rfl rfl (by decide)
    "Order" (by decide) "customer_id" _ "Customer" (by decide) rfl (by decide)

/-- Counterexample to C2 as stated: in c2Proj the variable named id belongs
to entity C and is a foreign key referencing D; foreign-key expansion puts
id into the required set of C, but C is never traversed (it is absent from
the request snapshot), so D gets nothing. -/
theorem fk_expansion_adds_id_counterexample :
    getRequiredVariables c2Proj [("A", ["fk"])] [] =
      Except.ok [("A", ["fk"]), ("C", ["id"])] ∧
    "id" ∈ rvGet [("A", ["fk"]), ("C", ["id"])] "C" ∧
    "id" ∉ rvGet [("A", ["fk"]), ("C", ["id"])] "D" ∧
    (∃ g vd, buildDependencyGraph c2Proj = Except.ok g ∧ dictGet g "id" = some vd ∧
      ("id", "D") ∈ vd.foreign_keys ∧ vd.var.entity_id = "ec" ∧
      findEntity c2Proj "C" = some ⟨"ec", "C"⟩ ∧ findEntity c2Proj "D" = some ⟨"ed", "D"⟩) :=
  ⟨rfl, by decide, by decide, ⟨_, _, rfl, rfl, by decide, rfl, rfl, rfl⟩⟩

/-- C5 (amended): once the dependency graph builds successfully, pull_data
never raises: the store call and the row processing run inside the try
block, so a raising store yields the empty mapping. Failures of
dependency-graph construction happen before the try block and propagate
(see the counterexample). -/
theorem pull_data_fail_soft :
    (∀ (store : Store) (p : Project) (ro : List (String × List String))
        (pin : List (String × List (String × Value))) (g : Graph),
      buildDependencyGraph p = Except.ok g →
      ∃ res, pullData store p ro pin = Except.ok res) ∧
    (∀ (store : Store) (p : Project) (ro : List (String × List String))
        (pin : List (String × List (String × Value))) (rv : RV),
      getRequiredVariables p ro pin = Except.ok rv →
      store (buildOptimalQuery p rv pin) = Except.error () →
      pullData store p ro pin = Except.ok []) := by
  constructor
  · intro store p ro pin g hg
    have hreq : getRequiredVariables p ro pin =
        Except.ok (traverseAll g (seedRequired ro pin)).1 := by
      unfold getRequiredVariables
      rw [hg]
      rfl
    unfold pullData
    rw [hreq]
    show ∃ res, (match (do
        let rows ← store (buildOptimalQuery p (traverseAll g (seedRequired ro pin)).1 pin)
        processRows (traverseAll g (seedRequired ro pin)).1 rows :
        Except Unit (List (String × List (String × Value)))) with
      | Except.ok res => Except.ok res
      | Except.error _ => Except.ok []) = Except.ok res
    cases (do
        let rows ← store (buildOptimalQuery p (traverseAll g (seedRequired ro pin)).1 pin)
        processRows (traverseAll g (seedRequired ro pin)).1 rows :
        Except Unit (List (String × List (String × Value)))) with
    | ok res => exact ⟨res, rfl⟩
    | error e => exact ⟨[], rfl⟩
  · intro store p ro pin rv hreq hstore
    unfold pullData
    rw [hreq]
    show (match (do
        let rows ← store (buildOptimalQuery p rv pin)
        processRows rv rows : Except Unit (List (String × List (String × Value)))) with
      | Except.ok res => Except.ok res
      | Except.error _ => Except.ok []) = Except.ok []
    have hbind : (do
        let rows ← store (buildOptimalQuery p rv pin)
        processRows rv rows : Except Unit (List (String × List (String × Value)))) =
        Except.error () := by
      rw [show (do
        let rows ← store (buildOptimalQuery p rv pin)
        processRows rv rows : Except Unit (List (String × List (String × Value)))) =
          (store (buildOptimalQuery p rv pin)).bind (fun rows => processRows rv rows) from rfl,
        hstore]
      rfl
    rw [hbind]

/-- Witness for C5: spec scenario 6, a store whose fetch raises makes
pull_data return the empty mapping without raising. -/
theorem pull_data_fail_soft_witness :
    pullData failStore pullerProject [("Customer", ["name"])] [] = Except.ok [] :=
  pull_data_fail_soft.2 failStore pullerProject [("Customer", ["name"])] [] _ rfl rfl

/-- Counterexample to C5 as stated: with a truthy foreign_key metadata
mapping lacking its entity key, build_dependency_graph raises KeyError
before pull_data reaches its try block, and the exception escapes to the
caller instead of becoming an empty mapping. -/
theorem pull_data_fail_soft_counterexample :
    pullData emptyStore c5Proj [("E", ["bad"])] [] = Except.error () := rfl

/-- C6 (amended): the compiled query has exactly one top-level union with
one SELECT arm per entry of required_vars — whether or not the entity has
a matching Entity or a non-empty variable set — while the CTE section has
exactly one clause per entry whose entity name matches an Entity of the
project (again regardless of emptiness). An entity absent from
project.entities therefore still contributes a union arm that references
its never-defined CTE name. -/
theorem build_optimal_query_shape :
    ∀ (p : Project) (rv : RV),
      (unionSelects rv).length = rv.length ∧
      (∀ pr ∈ rv, ("SELECT * FROM " ++ strToLower pr.1 ++ "_data") ∈ unionSelects rv) ∧
      (entityCtes p rv).length =
        (rv.filter (fun pr => (findEntity p pr.1).isSome)).length := by
  intro p rv
  refine ⟨by simp [unionSelects], ?_, ?_⟩
  · intro pr hpr
    unfold unionSelects
    exact List.mem_map.mpr ⟨pr, hpr, rfl⟩
  · induction rv with
    | nil => rfl
    | cons pr rest ih =>
      unfold entityCtes
      cases hf : findEntity p pr.1 with
      | none =>
        simp only [List.filterMap_cons, hf, List.filter_cons]
        simpa [entityCtes] using ih
      | some e =>
        simp only [List.filterMap_cons, hf, List.filter_cons]
        simpa [entityCtes] using ih

/-- Witness for C6 at a concrete mapping over the Customer/Order project:
one arm per entity in the union, one CTE for the matching Customer, none
for the unmatched Ghost. -/
theorem build_optimal_query_shape_witness :
    (unionSelects [("Customer", ["name"]), ("Ghost", ["x"])]).length = 2 ∧
    ("SELECT * FROM " ++ strToLower "Ghost" ++ "_data")
      ∈ unionSelects [("Customer", ["name"]), ("Ghost", ["x"])] ∧
    (entityCtes pullerProject [("Customer", ["name"]), ("Ghost", ["x"])]).length = 1 := by
  have h := build_optimal_query_shape pullerProject [("Customer", ["name"]), ("Ghost", ["x"])]
  exact ⟨h.1, h.2.1 ("Ghost", ["x"]) (by decide), h.2.2⟩

/-- Counterexample to C6 as stated: an entity present in required_vars but
absent from project.entities still contributes to the compiled query — the
union section contains a SELECT arm naming its ghost_data CTE even though
no CTE of that name was defined. -/
theorem build_optimal_query_shape_counterexample :
    entityCtes c6Proj [("Ghost", ["x"])] = [] ∧
    unionSelects [("Ghost", ["x"])] = ["SELECT * FROM ghost_data"] ∧
    buildOptimalQuery c6Proj [("Ghost", ["x"])] [] ≠ buildOptimalQuery c6Proj [] [] :=
  ⟨rfl, by decide, by decide⟩

/-! Equation lemmas for the engine resolution. -/

theorem calcVar_zero (reg : Registry) (lkp : List Variable) (inp : List (String × Value))
    (v : Variable) (c : Cache) (t : Trace) :
    calcVar reg lkp inp 0 v c t = Option.none := rfl

theorem calcVar_succ (reg : Registry) (lkp : List Variable) (inp : List (String × Value))
    (f : Nat) (v : Variable) (c : Cache) (t : Trace) :
    calcVar reg lkp inp (Nat.succ f) v c t =
      match dictGet c v.name with
      | some val => some (val, c, t)
      | Option.none =>
        if v.is_input then
          match dictGet inp v.name with
          | some val => some (val, dictInsert c v.name val, t)
          | Option.none => some (Value.vnone, c, t)
        else
          match v.function_name with
          | Option.none => some (Value.vnone, c, t)
          | some fname =>
            match dictGet reg fname with
            | Option.none => some (Value.vnone, c, t)
            | some fn =>
              match depLoop lkp (fun w c2 t2 => calcVar reg lkp inp f w c2 t2)
                  v.input_variables c t with
              | Option.none => Option.none
              | some (Option.none, c2, t2) => some (Value.vnone, c2, t2)
              | some (some args, c2, t2) =>
                match fn args with
                | some r => some (r, dictInsert c2 v.name r, t2 ++ [(v.name, true)])
                | Option.none => some (Value.vnone, c2, t2 ++ [(v.name, false)]) := rfl

/-- C3 (amended): memoization is definitive exactly for resolutions that
cache. (i) Once a variable name is cached, every further resolution of it
returns the cached value unchanged, touching neither the cache nor the
invocation trace — so no function runs again for it. (ii) Every completed
resolution either leaves its value in the cache under the variable name or
returned None; since failures are the only uncached outcomes, only a
raising function can be invoked more than once for the same name within a
call (the counterexample shows it is re-invoked). -/
theorem memoized_resolution :
    (∀ (reg : Registry) (lkp : List Variable) (inp : List (String × Value))
        (f : Nat) (v : Variable) (c : Cache) (t : Trace) (val : Value),
      dictGet c v.name = some val →
      calcVar reg lkp inp (Nat.succ f) v c t = some (val, c, t)) ∧
    (∀ (reg : Registry) (lkp : List Variable) (inp : List (String × Value))
        (f : Nat) (v : Variable) (c : Cache) (t : Trace) (val : Value)
        (c2 : Cache) (t2 : Trace),
      calcVar reg lkp inp f v c t = some (val, c2, t2) →
      dictGet c2 v.name = some val ∨ val = Value.vnone) := by
  constructor
  · intro reg lkp inp f v c t val h
    rw [calcVar_succ, h]
  · intro reg lkp inp f v c t val c2 t2 h
    cases f with
    | zero => cases h
    | succ f2 =>
      rw [calcVar_succ] at h
      cases hc : dictGet c v.name with
      | some w =>
        rw [hc] at h
        simp only [Option.some.injEq, Prod.mk.injEq] at h
        obtain ⟨h1, h2, h3⟩ := h
        subst h1
        subst h2
        exact Or.inl hc
      | none =>
        rw [hc] at h
        cases hb : v.is_input with
        | true =>
          rw [hb] at h
          simp only [if_true] at h
          cases hi : dictGet inp v.name with
          | some w =>
            rw [hi] at h
            simp only [Option.some.injEq, Prod.mk.injEq] at h
            obtain ⟨h1, h2, h3⟩ := h
            subst h1
            subst h2
            exact Or.inl (dictGet_dictInsert_self c v.name _)
          | none =>
            rw [hi] at h
            simp only [Option.some.injEq, Prod.mk.injEq] at h
            exact Or.inr h.1.symm
        | false =>
          rw [hb] at h
          simp only [Bool.false_eq_true, if_false] at h
          cases hf : v.function_name with
          | none =>
            rw [hf] at h
            simp only [Option.some.injEq, Prod.mk.injEq] at h
            exact Or.inr h.1.symm
          | some fname =>
            rw [hf] at h
            dsimp only at h
            cases hr : dictGet reg fname with
            | none =>
              rw [hr] at h
              simp only [Option.some.injEq, Prod.mk.injEq] at h
              exact Or.inr h.1.symm
            | some fn =>
              rw [hr] at h
              dsimp only at h
              cases hd : depLoop lkp (fun w c3 t3 => calcVar reg lkp inp f2 w c3 t3)
                  v.input_variables c t with
              | none =>
                rw [hd] at h
                cases h
              | some st =>
                rw [hd] at h
                obtain ⟨args?, c3, t3⟩ := st
                cases hargs : args? with
                | none =>
                  rw [hargs] at h
                  simp only [Option.some.injEq, Prod.mk.injEq] at h
                  exact Or.inr h.1.symm
                | some args =>
                  rw [hargs] at h
                  dsimp only at h
                  cases hfn : fn args with
                  | some r =>
                    rw [hfn] at h
                    simp only [Option.some.injEq, Prod.mk.injEq] at h
                    obtain ⟨h1, h2, h3⟩ := h
                    subst h1
                    subst h2
                    exact Or.inl (dictGet_dictInsert_self c3 v.name _)
                  | none =>
                    rw [hfn] at h
                    simp only [Option.some.injEq, Prod.mk.injEq] at h
                    exact Or.inr h.1.symm

/-- Witness for C3: with is_adult already cached from a first resolution,
a second resolution returns the cached true with no new invocation event
recorded. -/
theorem memoized_resolution_witness :
    calcVar specRegistry engineProject.vars [("age", Value.vnum 30)] 10
      (mkVar "var3" "is_adult" "entity1" false (some "check_adult") ["age"] Option.none)
      [("age", Value.vnum 30), ("is_adult", Value.vbool true)] [("is_adult", true)] =
    some (Value.vbool true,
      [("age", Value.vnum 30), ("is_adult", Value.vbool true)], [("is_adult", true)]) :=
  memoized_resolution.1 specRegistry engineProject.vars [("age", Value.vnum 30)] 9
    (mkVar "var3" "is_adult" "entity1" false (some "check_adult") ["age"] Option.none)
    [("age", Value.vnum 30), ("is_adult", Value.vbool true)] [("is_adult", true)]
    (Value.vbool true) rfl

/-- Counterexample to C3 as stated: requesting the always-raising derived
variable x twice in one execute call invokes its registered function twice
(two recorded invocation events), because a failed invocation is not
cached. -/
theorem memoized_resolution_counterexample :
    (execute boomRegistry c3Proj [] [("E", ["x", "x"])] 10).map
      (fun st => ((st.2.filter (fun ev => ev.1 == "x")).length, dictGet st.1 "E")) =
    some (2, some [("x", Value.vnone)]) := by decide

/-- C4 (amended): the calculated-value cache IS shared across entities
within one execute call: a dependency cached while processing an earlier
entity is returned when the same name is resolved for a later entity, even
though that entity supplies a different input value. Concretely dB reads
the 1 cached for x while processing A, although B provides x = 2 — and
resolving the request of B alone returns 2. -/
theorem cache_shared_across_entities :
    (execute identRegistry c4Proj
        [("A", [("x", Value.vnum 1)]), ("B", [("x", Value.vnum 2)])]
        [("A", ["dA"]), ("B", ["dB"])] 10).map (fun st => st.1) =
      some [("A", [("dA", Value.vnum 1)]), ("B", [("dB", Value.vnum 1)])] ∧
    (execute identRegistry c4Proj
        [("A", [("x", Value.vnum 1)]), ("B", [("x", Value.vnum 2)])]
        [("B", ["dB"])] 10).map (fun st => st.1) =
      some [("B", [("dB", Value.vnum 2)])] := by
  constructor
  · decide
  · decide

/-- Counterexample to C4 as stated: while processing entity B, resolving dB
returns the value that was cached for x while processing entity A (1),
not the value 2 that the inputs of B provide. -/
theorem cache_shared_across_entities_counterexample :
    (execute identRegistry c4Proj
        [("A", [("x", Value.vnum 1)]), ("B", [("x", Value.vnum 2)])]
        [("A", ["dA"]), ("B", ["dB"])] 10).map
      (fun st => dictGet st.1 "B") = some (some [("dB", Value.vnum 1)]) ∧
    dictGet [("A", [("x", Value.vnum 1)]), ("B", [("x", Value.vnum 2)])] "B" =
      some [("x", Value.vnum 2)] ∧
    Value.vnum 1 ≠ Value.vnum 2 := by
  refine ⟨by decide, rfl, by decide⟩

/-! Equation lemmas for the execute loops. -/

theorem execVars_nil (reg : Registry) (lkp : List Variable) (inp : List (String × Value))
    (fuel : Nat) (e : Entity) (m : List (String × Value)) (c : Cache) (t : Trace) :
    execVars reg lkp inp fuel e [] m c t = some (m, c, t) := rfl

theorem execVars_cons (reg : Registry) (lkp : List Variable) (inp : List (String × Value))
    (fuel : Nat) (e : Entity) (n : String) (rest : List String)
    (m : List (String × Value)) (c : Cache) (t : Trace) :
    execVars reg lkp inp fuel e (n :: rest) m c t =
      match variableLookup lkp n with
      | Option.none => execVars reg lkp inp fuel e rest m c t
      | some v =>
        if v.entity_id == e.id then
          match calcVar reg lkp inp fuel v c t with
          | Option.none => Option.none
          | some (val, c2, t2) =>
            execVars reg lkp inp fuel e rest (dictInsert m n val) c2 t2
        else execVars reg lkp inp fuel e rest m c t := rfl

theorem execEntities_nil (reg : Registry) (p : Project)
    (inputs : List (String × List (String × Value))) (fuel : Nat)
    (r : List (String × List (String × Value))) (c : Cache) (t : Trace) :
    execEntities reg p inputs fuel [] r c t = some (r, c, t) := rfl

theorem execEntities_cons (reg : Registry) (p : Project)
    (inputs : List (String × List (String × Value))) (fuel : Nat)
    (ent : String) (names : List String) (rest : List (String × List String))
    (r : List (String × List (String × Value))) (c : Cache) (t : Trace) :
    execEntities reg p inputs fuel ((ent, names) :: rest) r c t =
      match entityLookup p ent with
      | Option.none => execEntities reg p inputs fuel rest r c t
      | some e =>
        match execVars reg p.vars ((dictGet inputs ent).getD []) fuel e names [] c t with
        | Option.none => Option.none
        | some (m, c2, t2) =>
          execEntities reg p inputs fuel rest (dictInsert r ent m) c2 t2 := rfl

/-! The ownership guard (C8) and the result-key shape (C10). -/

theorem execVars_skip (reg : Registry) (lkp : List Variable) (inp : List (String × Value))
    (fuel : Nat) (e : Entity) (names : List String) (n : String) (v : Variable)
    (hv : variableLookup lkp n = some v) (hne : v.entity_id ≠ e.id) :
    ∀ (m : List (String × Value)) (c : Cache) (t : Trace)
      (out : List (String × Value) × Cache × Trace),
      execVars reg lkp inp fuel e names m c t = some out →
      dictGet m n = Option.none → dictGet out.1 n = Option.none := by
  induction names with
  | nil =>
    intro m c t out hrun hm
    rw [execVars_nil] at hrun
    injection hrun with hrun
    rw [← hrun]
    exact hm
  | cons n0 rest ih =>
    intro m c t out hrun hm
    rw [execVars_cons] at hrun
    cases hl : variableLookup lkp n0 with
    | none =>
      rw [hl] at hrun
      exact ih m c t out hrun hm
    | some w =>
      rw [hl] at hrun
      dsimp only at hrun
      by_cases hw : (w.entity_id == e.id) = true
      · rw [if_pos hw] at hrun
        cases hcal : calcVar reg lkp inp fuel w c t with
        | none =>
          rw [hcal] at hrun
          cases hrun
        | some st =>
          rw [hcal] at hrun
          obtain ⟨val, c2, t2⟩ := st
          dsimp only at hrun
          have hn0 : n0 ≠ n := by
            intro he
            subst he
            rw [hv] at hl
            injection hl with hl
            subst hl
            exact hne (beq_iff_eq.mp hw)
          refine ih _ _ _ out hrun ?_
          rw [dictGet_dictInsert_ne _ _ _ _ (fun hh => hn0 hh.symm)]
          exact hm
      · rw [if_neg hw] at hrun
        exact ih m c t out hrun hm

theorem execEntities_guard (reg : Registry) (p : Project)
    (inputs : List (String × List (String × Value))) (fuel : Nat)
    (ent : String) (e : Entity) (n : String) (v : Variable)
    (he : entityLookup p ent = some e)
    (hv : variableLookup p.vars n = some v) (hne : v.entity_id ≠ e.id) :
    ∀ (outs : List (String × List String))
      (r : List (String × List (String × Value))) (c : Cache) (t : Trace)
      (out : List (String × List (String × Value)) × Cache × Trace),
      execEntities reg p inputs fuel outs r c t = some out →
      (∀ m, dictGet r ent = some m → dictGet m n = Option.none) →
      ∀ m, dictGet out.1 ent = some m → dictGet m n = Option.none := by
  intro outs
  induction outs with
  | nil =>
    intro r c t out hrun hr m hm
    rw [execEntities_nil] at hrun
    injection hrun with hrun
    rw [← hrun] at hm
    exact hr m hm
  | cons pr rest ih =>
    intro r c t out hrun hr m hm
    obtain ⟨e0, names0⟩ := pr
    rw [execEntities_cons] at hrun
    cases hl : entityLookup p e0 with
    | none =>
      rw [hl] at hrun
      exact ih r c t out hrun hr m hm
    | some ev =>
      rw [hl] at hrun
      dsimp only at hrun
      cases hvr : execVars reg p.vars ((dictGet inputs e0).getD []) fuel ev names0 [] c t with
      | none =>
        rw [hvr] at hrun
        cases hrun
      | some st =>
        rw [hvr] at hrun
        obtain ⟨m2, c2, t2⟩ := st
        dsimp only at hrun
        refine ih _ _ _ out hrun ?_ m hm
        intro m3 hm3
        by_cases hee : ent = e0
        · subst hee
          rw [dictGet_dictInsert_self] at hm3
          injection hm3 with hm3
          subst hm3
          rw [hl] at he
          injection he with he2
          exact execVars_skip reg p.vars _ fuel ev names0 n v hv
            (fun hh => hne (he2 ▸ hh)) [] c t (m2, c2, t2) hvr rfl
        · rw [dictGet_dictInsert_ne _ _ _ _ hee] at hm3
          exact hr m3 hm3

/-- C8: the ownership guard of Engine.execute — whenever the variable that
variable_lookup resolves for a requested name belongs to a different
entity than the one under which it was requested, that name never appears
as a key in the result mapping of that entity. -/
theorem ownership_guard (reg : Registry) (p : Project)
    (inputs : List (String × List (String × Value)))
    (outputs : List (String × List String)) (fuel : Nat)
    (r : List (String × List (String × Value))) (tr : Trace)
    (ent : String) (e : Entity) (n : String) (v : Variable)
    (m : List (String × Value))
    (hex : execute reg p inputs outputs fuel = some (r, tr))
    (he : entityLookup p ent = some e)
    (hv : variableLookup p.vars n = some v)
    (hne : v.entity_id ≠ e.id)
    (hm : dictGet r ent = some m) : dictGet m n = Option.none := by
  unfold execute at hex
  cases hE : execEntities reg p inputs fuel outputs [] [] [] with
  | none =>
    rw [hE] at hex
    cases hex
  | some st =>
    rw [hE] at hex
    injection hex with hex
    have hr : st.1 = r := congrArg Prod.fst hex
    refine execEntities_guard reg p inputs fuel ent e n v he hv hne outputs [] [] [] st hE
      ?_ m ?_
    · intro m2 hm2
      cases hm2
    · rw [hr]
      exact hm

/-- Witness for C8: requesting the Order-owned tax under Customer leaves
the Customer result mapping without a tax key. -/
theorem ownership_guard_witness :
    dictGet ([] : List (String × Value)) "tax" = Option.none :=
  ownership_guard specRegistry engineProject
    [("Customer", [("age", Value.vnum 30)])] [("Customer", ["tax"])] 10
    [("Customer", [])] [] "Customer" ⟨"entity1", "Customer"⟩ "tax"
    (mkVar "var6" "tax" "entity2" false (some "calculate_tax") ["amount"] Option.none)
    [] rfl rfl rfl (by decide) rfl

theorem execEntities_keys (reg : Registry) (p : Project)
    (inputs : List (String × List (String × Value))) (fuel : Nat) (ent : String) :
    ∀ (outs : List (String × List String))
      (r : List (String × List (String × Value))) (c : Cache) (t : Trace)
      (out : List (String × List (String × Value)) × Cache × Trace),
      execEntities reg p inputs fuel outs r c t = some out →
      ((dictGet out.1 ent).isSome = true ↔
        ((dictGet r ent).isSome = true ∨
          (ent ∈ outs.map Prod.fst ∧ (entityLookup p ent).isSome = true))) := by
  intro outs
  induction outs with
  | nil =>
    intro r c t out hrun
    rw [execEntities_nil] at hrun
    injection hrun with hrun
    rw [← hrun]
    simp
  | cons pr rest ih =>
    intro r c t out hrun
    obtain ⟨e0, names0⟩ := pr
    rw [execEntities_cons] at hrun
    cases hl : entityLookup p e0 with
    | none =>
      rw [hl] at hrun
      rw [ih r c t out hrun]
      by_cases hee : ent = e0
      · subst hee
        rw [hl]
        simp
      · simp only [List.map_cons, List.mem_cons]
        constructor
        · rintro (h | h)
          · exact Or.inl h
          · exact Or.inr ⟨Or.inr h.1, h.2⟩
        · rintro (h | h)
          · exact Or.inl h
          · rcases h.1 with h1 | h1
            · cases hee h1
            · exact Or.inr ⟨h1, h.2⟩
    | some ev =>
      rw [hl] at hrun
      dsimp only at hrun
      cases hvr : execVars reg p.vars ((dictGet inputs e0).getD []) fuel ev names0 [] c t with
      | none =>
        rw [hvr] at hrun
        cases hrun
      | some st =>
        rw [hvr] at hrun
        obtain ⟨m2, c2, t2⟩ := st
        dsimp only at hrun
        rw [ih _ c2 t2 out hrun]
        by_cases hee : ent = e0
        · subst hee
          rw [dictGet_dictInsert_self, hl]
          simp
        · rw [dictGet_dictInsert_ne _ _ _ _ hee]
          simp only [List.map_cons, List.mem_cons]
          constructor
          · rintro (h | h)
            · exact Or.inl h
            · exact Or.inr ⟨Or.inr h.1, h.2⟩
          · rintro (h | h)
            · exact Or.inl h
            · rcases h.1 with h1 | h1
              · cases hee h1
              · exact Or.inr ⟨h1, h.2⟩

/-- C10: the result of Engine.execute has a key exactly for each requested
entity name with a matching Entity in the project (bound to a possibly
empty mapping, even when every requested variable was skipped); a
requested entity name with no matching Entity contributes no key. -/
theorem requested_entity_keys (reg : Registry) (p : Project)
    (inputs : List (String × List (String × Value)))
    (outputs : List (String × List String)) (fuel : Nat)
    (r : List (String × List (String × Value))) (tr : Trace) (ent : String)
    (hex : execute reg p inputs outputs fuel = some (r, tr)) :
    (dictGet r ent).isSome = true ↔
      (ent ∈ outputs.map Prod.fst ∧ (entityLookup p ent).isSome = true) := by
  unfold execute at hex
  cases hE : execEntities reg p inputs fuel outputs [] [] [] with
  | none =>
    rw [hE] at hex
    cases hex
  | some st =>
    rw [hE] at hex
    injection hex with hex
    have hr : st.1 = r := congrArg Prod.fst hex
    have h := execEntities_keys reg p inputs fuel ent outputs [] [] [] st hE
    rw [hr] at h
    rw [h]
    simp [dictGet_nil]

/-- Witness for C10: requesting Customer with only unknown or unowned
variables and the unknown Ghost entity yields a result that has a Customer
key bound to an empty mapping and no Ghost key. -/
theorem requested_entity_keys_witness :
    ((dictGet [("Customer", ([] : List (String × Value)))] "Customer").isSome = true ↔
      ("Customer" ∈ (([("Customer", ["nope", "tax"]), ("Ghost", ["x"])] :
          List (String × List String)).map Prod.fst) ∧
        (entityLookup engineProject "Customer").isSome = true)) ∧
    ((dictGet [("Customer", ([] : List (String × Value)))] "Ghost").isSome = true ↔
      ("Ghost" ∈ (([("Customer", ["nope", "tax"]), ("Ghost", ["x"])] :
          List (String × List String)).map Prod.fst) ∧
        (entityLookup engineProject "Ghost").isSome = true)) :=
  ⟨requested_entity_keys specRegistry engineProject [] [("Customer", ["nope", "tax"]), ("Ghost", ["x"])]
      10 [("Customer", [])] [] "Customer" rfl,
    requested_entity_keys specRegistry engineProject [] [("Customer", ["nope", "tax"]), ("Ghost", ["x"])]
      10 [("Customer", [])] [] "Ghost" rfl⟩

/-! Fail-soft evaluation of derived variables (C7). -/

theorem variableLookup_name (vs : List Variable) (n : String) (v : Variable)
    (h : variableLookup vs n = some v) : v.name = n := by
  unfold variableLookup at h
  have aux : ∀ (l : List Variable) (acc : Option Variable),
      (∀ w, acc = some w → w.name = n) →
      ∀ w, l.foldl (fun acc v => if v.name == n then some v else acc) acc = some w →
        w.name = n := by
    intro l
    induction l with
    | nil => intro acc hacc w hw; exact hacc w hw
    | cons u rest ih =>
      intro acc hacc w hw
      rw [List.foldl_cons] at hw
      refine ih _ ?_ w hw
      intro w2 hw2
      by_cases hb : (u.name == n) = true
      · rw [if_pos hb] at hw2
        injection hw2 with hw2
        rw [← hw2]
        exact beq_iff_eq.mp hb
      · rw [if_neg hb] at hw2
        exact hacc w2 hw2
  exact aux vs Option.none (fun w hw => by cases hw) v h

theorem depLoop_nil (lkp : List Variable)
    (resolve : Variable → Cache → Trace → Option (Value × Cache × Trace))
    (c : Cache) (t : Trace) :
    depLoop lkp resolve [] c t = some (some [], c, t) := rfl

theorem depLoop_cons (lkp : List Variable)
    (resolve : Variable → Cache → Trace → Option (Value × Cache × Trace))
    (n : String) (rest : List String) (c : Cache) (t : Trace) :
    depLoop lkp resolve (n :: rest) c t =
      match variableLookup lkp n with
      | Option.none => some (Option.none, c, t)
      | some w =>
        match resolve w c t with
        | Option.none => Option.none
        | some (val, c2, t2) =>
          match depLoop lkp resolve rest c2 t2 with
          | Option.none => Option.none
          | some (Option.none, c3, t3) => some (Option.none, c3, t3)
          | some (some args, c3, t3) => some (some ((n, val) :: args), c3, t3) := rfl

theorem depLoop_pres (lkp : List Variable)
    (resolve : Variable → Cache → Trace → Option (Value × Cache × Trace))
    (P : Cache → Prop)
    (hres : ∀ w c t out, variableLookup lkp w.name = some w →
      resolve w c t = some out → P c → P out.2.1) :
    ∀ (names : List String) (c : Cache) (t : Trace)
      (out : Option (List (String × Value)) × Cache × Trace),
      depLoop lkp resolve names c t = some out → P c → P out.2.1 := by
  intro names
  induction names with
  | nil =>
    intro c t out hrun hP
    rw [depLoop_nil] at hrun
    injection hrun with hrun
    rw [← hrun]
    exact hP
  | cons n rest ih =>
    intro c t out hrun hP
    rw [depLoop_cons] at hrun
    cases hl : variableLookup lkp n with
    | none =>
      rw [hl] at hrun
      injection hrun with hrun
      rw [← hrun]
      exact hP
    | some w =>
      rw [hl] at hrun
      dsimp only at hrun
      cases hr : resolve w c t with
      | none =>
        rw [hr] at hrun
        cases hrun
      | some st =>
        rw [hr] at hrun
        obtain ⟨val, c2, t2⟩ := st
        dsimp only at hrun
        have hw : variableLookup lkp w.name = some w := by
          rw [variableLookup_name lkp n w hl]
          exact hl
        have hP2 : P c2 := hres w c t (val, c2, t2) hw hr hP
        cases hd : depLoop lkp resolve rest c2 t2 with
        | none =>
          rw [hd] at hrun
          cases hrun
        | some st2 =>
          rw [hd] at hrun
          obtain ⟨args?, c3, t3⟩ := st2
          have hP3 : P c3 := ih c2 t2 (args?, c3, t3) hd hP2
          cases hargs : args? with
          | none =>
            rw [hargs] at hrun
            injection hrun with hrun
            rw [← hrun]
            exact hP3
          | some args =>
            rw [hargs] at hrun
            injection hrun with hrun
            rw [← hrun]
            exact hP3

theorem calcVar_keeps_missing (reg : Registry) (lkp : List Variable)
    (inp : List (String × Value)) (n : String) (vb : Variable)
    (hlk : variableLookup lkp n = some vb) (hbi : vb.is_input = false)
    (hbf : ∀ fname, vb.function_name = some fname → ∀ fn, dictGet reg fname = some fn →
      ∀ args, fn args = Option.none) :
    ∀ (fuel : Nat) (v : Variable) (c : Cache) (t : Trace)
      (out : Value × Cache × Trace),
      variableLookup lkp v.name = some v →
      calcVar reg lkp inp fuel v c t = some out →
      dictGet c n = Option.none → dictGet out.2.1 n = Option.none := by
  intro fuel
  induction fuel with
  | zero => intro v c t out hv hrun hc; cases hrun
  | succ f ih =>
    intro v c t out hv hrun hc
    rw [calcVar_succ] at hrun
    cases hcc : dictGet c v.name with
    | some w =>
      rw [hcc] at hrun
      injection hrun with hrun
      rw [← hrun]
      exact hc
    | none =>
      rw [hcc] at hrun
      cases hb : v.is_input with
      | true =>
        rw [hb] at hrun
        simp only [if_true] at hrun
        cases hi : dictGet inp v.name with
        | some w =>
          rw [hi] at hrun
          injection hrun with hrun
          rw [← hrun]
          show dictGet (dictInsert c v.name w) n = Option.none
          have hvn : v.name ≠ n := by
            intro he
            rw [he, hlk] at hv
            injection hv with hv
            rw [hv, hb] at hbi
            cases hbi
          rw [dictGet_dictInsert_ne _ _ _ _ (fun hh => hvn hh.symm)]
          exact hc
        | none =>
          rw [hi] at hrun
          injection hrun with hrun
          rw [← hrun]
          exact hc
      | false =>
        rw [hb] at hrun
        simp only [Bool.false_eq_true, if_false] at hrun
        cases hf : v.function_name with
        | none =>
          rw [hf] at hrun
          injection hrun with hrun
          rw [← hrun]
          exact hc
        | some fname =>
          rw [hf] at hrun
          dsimp only at hrun
          cases hr : dictGet reg fname with
          | none =>
            rw [hr] at hrun
            injection hrun with hrun
            rw [← hrun]
            exact hc
          | some fn =>
            rw [hr] at hrun
            dsimp only at hrun
            cases hd : depLoop lkp (fun w c2 t2 => calcVar reg lkp inp f w c2 t2)
                v.input_variables c t with
            | none =>
              rw [hd] at hrun
              cases hrun
            | some st =>
              rw [hd] at hrun
              obtain ⟨args?, c2, t2⟩ := st
              have hc2 : dictGet c2 n = Option.none := by
                have := depLoop_pres lkp
                  (fun w c2 t2 => calcVar reg lkp inp f w c2 t2)
                  (fun cc => dictGet cc n = Option.none)
                  (fun w c3 t3 out3 hw hr3 hP => ih w c3 t3 out3 hw hr3 hP)
                  v.input_variables c t (args?, c2, t2) hd hc
                exact this
              cases hargs : args? with
              | none =>
                rw [hargs] at hrun
                injection hrun with hrun
                rw [← hrun]
                exact hc2
              | some args =>
                rw [hargs] at hrun
                dsimp only at hrun
                cases hfn : fn args with
                | some r =>
                  rw [hfn] at hrun
                  injection hrun with hrun
                  rw [← hrun]
                  show dictGet (dictInsert c2 v.name r) n = Option.none
                  have hvn : v.name ≠ n := by
                    intro he
                    rw [he, hlk] at hv
                    injection hv with hv
                    have := hbf fname (by rw [hv]; exact hf) fn hr args
                    rw [this] at hfn
                    cases hfn
                  rw [dictGet_dictInsert_ne _ _ _ _ (fun hh => hvn hh.symm)]
                  exact hc2
                | none =>
                  rw [hfn] at hrun
                  injection hrun with hrun
                  rw [← hrun]
                  exact hc2

theorem calcVar_bad_value (reg : Registry) (lkp : List Variable)
    (inp : List (String × Value)) (n : String) (vb : Variable)
    (hlk : variableLookup lkp n = some vb) (hbi : vb.is_input = false)
    (hbf : ∀ fname, vb.function_name = some fname → ∀ fn, dictGet reg fname = some fn →
      ∀ args, fn args = Option.none) :
    ∀ (fuel : Nat) (c : Cache) (t : Trace) (out : Value × Cache × Trace),
      calcVar reg lkp inp fuel vb c t = some out →
      dictGet c n = Option.none → out.1 = Value.vnone := by
  intro fuel c t out hrun hc
  cases fuel with
  | zero => cases hrun
  | succ f =>
    rw [calcVar_succ] at hrun
    have hname : vb.name = n := variableLookup_name lkp n vb hlk
    cases hcc : dictGet c vb.name with
    | some w =>
      rw [hname, hc] at hcc
      cases hcc
    | none =>
      rw [hcc] at hrun
      rw [hbi] at hrun
      simp only [Bool.false_eq_true, if_false] at hrun
      cases hf : vb.function_name with
      | none =>
        rw [hf] at hrun
        injection hrun with hrun
        rw [← hrun]
      | some fname =>
        rw [hf] at hrun
        dsimp only at hrun
        cases hr : dictGet reg fname with
        | none =>
          rw [hr] at hrun
          injection hrun with hrun
          rw [← hrun]
        | some fn =>
          rw [hr] at hrun
          dsimp only at hrun
          cases hd : depLoop lkp (fun w c2 t2 => calcVar reg lkp inp f w c2 t2)
              vb.input_variables c t with
          | none =>
            rw [hd] at hrun
            cases hrun
          | some st =>
            rw [hd] at hrun
            obtain ⟨args?, c2, t2⟩ := st
            cases hargs : args? with
            | none =>
              rw [hargs] at hrun
              injection hrun with hrun
              rw [← hrun]
            | some args =>
              rw [hargs] at hrun
              dsimp only at hrun
              rw [hbf fname hf fn hr args] at hrun
              injection hrun with hrun
              rw [← hrun]

theorem execVars_keeps_missing (reg : Registry) (lkp : List Variable)
    (inp : List (String × Value)) (fuel : Nat) (e : Entity) (n : String) (vb : Variable)
    (hlk : variableLookup lkp n = some vb) (hbi : vb.is_input = false)
    (hbf : ∀ fname, vb.function_name = some fname → ∀ fn, dictGet reg fname = some fn →
      ∀ args, fn args = Option.none) :
    ∀ (names : List String) (m : List (String × Value)) (c : Cache) (t : Trace)
      (out : List (String × Value) × Cache × Trace),
      execVars reg lkp inp fuel e names m c t = some out →
      dictGet c n = Option.none → dictGet out.2.1 n = Option.none := by
  intro names
  induction names with
  | nil =>
    intro m c t out hrun hc
    rw [execVars_nil] at hrun
    injection hrun with hrun
    rw [← hrun]
    exact hc
  | cons n0 rest ih =>
    intro m c t out hrun hc
    rw [execVars_cons] at hrun
    cases hl : variableLookup lkp n0 with
    | none =>
      rw [hl] at hrun
      exact ih m c t out hrun hc
    | some w =>
      rw [hl] at hrun
      dsimp only at hrun
      by_cases hw : (w.entity_id == e.id) = true
      · rw [if_pos hw] at hrun
        cases hcal : calcVar reg lkp inp fuel w c t with
        | none =>
          rw [hcal] at hrun
          cases hrun
        | some st =>
          rw [hcal] at hrun
          obtain ⟨val, c2, t2⟩ := st
          dsimp only at hrun
          have hwl : variableLookup lkp w.name = some w := by
            rw [variableLookup_name lkp n0 w hl]
            exact hl
          have hc2 : dictGet c2 n = Option.none :=
            calcVar_keeps_missing reg lkp inp n vb hlk hbi hbf fuel w c t (val, c2, t2)
              hwl hcal hc
          exact ih _ c2 t2 out hrun hc2
      · rw [if_neg hw] at hrun
        exact ih m c t out hrun hc

theorem execVars_bad (reg : Registry) (lkp : List Variable)
    (inp : List (String × Value)) (fuel : Nat) (e : Entity) (n : String) (vb : Variable)
    (hlk : variableLookup lkp n = some vb) (hbi : vb.is_input = false)
    (hbf : ∀ fname, vb.function_name = some fname → ∀ fn, dictGet reg fname = some fn →
      ∀ args, fn args = Option.none)
    (hown : vb.entity_id = e.id) :
    ∀ (names : List String) (m : List (String × Value)) (c : Cache) (t : Trace)
      (out : List (String × Value) × Cache × Trace),
      execVars reg lkp inp fuel e names m c t = some out →
      dictGet c n = Option.none →
      (n ∈ names ∨ dictGet m n = some Value.vnone) →
      dictGet out.1 n = some Value.vnone := by
  intro names
  induction names with
  | nil =>
    intro m c t out hrun hc hcase
    rw [execVars_nil] at hrun
    injection hrun with hrun
    rw [← hrun]
    rcases hcase with h | h
    · cases h
    · exact h
  | cons n0 rest ih =>
    intro m c t out hrun hc hcase
    rw [execVars_cons] at hrun
    cases hl : variableLookup lkp n0 with
    | none =>
      rw [hl] at hrun
      have hn0 : n0 ≠ n := by
        intro he
        rw [he, hlk] at hl
        cases hl
      refine ih m c t out hrun hc ?_
      rcases hcase with h | h
      · rcases List.mem_cons.mp h with rfl | h2
        · cases hn0 rfl
        · exact Or.inl h2
      · exact Or.inr h
    | some w =>
      rw [hl] at hrun
      dsimp only at hrun
      have hwl : variableLookup lkp w.name = some w := by
        rw [variableLookup_name lkp n0 w hl]
        exact hl
      by_cases hw : (w.entity_id == e.id) = true
      · rw [if_pos hw] at hrun
        cases hcal : calcVar reg lkp inp fuel w c t with
        | none =>
          rw [hcal] at hrun
          cases hrun
        | some st =>
          rw [hcal] at hrun
          obtain ⟨val, c2, t2⟩ := st
          dsimp only at hrun
          have hc2 : dictGet c2 n = Option.none :=
            calcVar_keeps_missing reg lkp inp n vb hlk hbi hbf fuel w c t (val, c2, t2)
              hwl hcal hc
          by_cases hn0 : n0 = n
          · subst hn0
            rw [hlk] at hl
            injection hl with hl
            have hval : val = Value.vnone := by
              have := calcVar_bad_value reg lkp inp n0 vb hlk hbi hbf fuel c t
                (val, c2, t2) ?_ hc
              · exact this
              · rw [hl]
                exact hcal
            subst hval
            refine ih _ c2 t2 out hrun hc2 (Or.inr ?_)
            exact dictGet_dictInsert_self m n0 Value.vnone
          · refine ih _ c2 t2 out hrun hc2 ?_
            rcases hcase with h | h
            · rcases List.mem_cons.mp h with rfl | h2
              · cases hn0 rfl
              · exact Or.inl h2
            · refine Or.inr ?_
              rw [dictGet_dictInsert_ne _ _ _ _ (fun hh => hn0 hh.symm)]
              exact h
      · rw [if_neg hw] at hrun
        have hn0 : n0 ≠ n := by
          intro he
          subst he
          rw [hlk] at hl
          injection hl with hl
          rw [← hl] at hw
          rw [hown] at hw
          simp at hw
        refine ih m c t out hrun hc ?_
        rcases hcase with h | h
        · rcases List.mem_cons.mp h with rfl | h2
          · cases hn0 rfl
          · exact Or.inl h2
        · exact Or.inr h

theorem execEntities_entry_stable (reg : Registry) (p : Project)
    (inputs : List (String × List (String × Value))) (fuel : Nat) (ent : String)
    (m : List (String × Value)) :
    ∀ (outs : List (String × List String))
      (r : List (String × List (String × Value))) (c : Cache) (t : Trace)
      (out : List (String × List (String × Value)) × Cache × Trace),
      execEntities reg p inputs fuel outs r c t = some out →
      ent ∉ outs.map Prod.fst →
      dictGet r ent = some m → dictGet out.1 ent = some m := by
  intro outs
  induction outs with
  | nil =>
    intro r c t out hrun hmem hr
    rw [execEntities_nil] at hrun
    injection hrun with hrun
    rw [← hrun]
    exact hr
  | cons pr rest ih =>
    intro r c t out hrun hmem hr
    obtain ⟨e0, names0⟩ := pr
    have hne : ent ≠ e0 := by
      intro he
      exact hmem (by rw [he]; exact List.mem_cons_self _ _)
    have hmem2 : ent ∉ rest.map Prod.fst := fun hh => hmem (List.mem_cons_of_mem _ hh)
    rw [execEntities_cons] at hrun
    cases hl : entityLookup p e0 with
    | none =>
      rw [hl] at hrun
      exact ih r c t out hrun hmem2 hr
    | some ev =>
      rw [hl] at hrun
      dsimp only at hrun
      cases hvr : execVars reg p.vars ((dictGet inputs e0).getD []) fuel ev names0 [] c t with
      | none =>
        rw [hvr] at hrun
        cases hrun
      | some st =>
        rw [hvr] at hrun
        obtain ⟨m2, c2, t2⟩ := st
        dsimp only at hrun
        refine ih _ c2 t2 out hrun hmem2 ?_
        rw [dictGet_dictInsert_ne _ _ _ _ hne]
        exact hr

theorem execEntities_bad (reg : Registry) (p : Project)
    (inputs : List (String × List (String × Value))) (fuel : Nat)
    (ent : String) (e : Entity) (n : String) (vb : Variable)
    (he : entityLookup p ent = some e)
    (hlk : variableLookup p.vars n = some vb) (hbi : vb.is_input = false)
    (hbf : ∀ fname, vb.function_name = some fname → ∀ fn, dictGet reg fname = some fn →
      ∀ args, fn args = Option.none)
    (hown : vb.entity_id = e.id) :
    ∀ (outs : List (String × List String))
      (r : List (String × List (String × Value))) (c : Cache) (t : Trace)
      (out : List (String × List (String × Value)) × Cache × Trace),
      execEntities reg p inputs fuel outs r c t = some out →
      dictGet c n = Option.none →
      (outs.map Prod.fst).Nodup →
      (∃ names, (ent, names) ∈ outs ∧ n ∈ names) →
      ∃ m, dictGet out.1 ent = some m ∧ dictGet m n = some Value.vnone := by
  intro outs
  induction outs with
  | nil =>
    intro r c t out hrun hc hnd hex
    obtain ⟨names, hmem, hn⟩ := hex
    cases hmem
  | cons pr rest ih =>
    intro r c t out hrun hc hnd hex
    obtain ⟨e0, names0⟩ := pr
    obtain ⟨names, hmem, hn⟩ := hex
    rw [execEntities_cons] at hrun
    rcases List.mem_cons.mp hmem with heq | hmem2
    · injection heq with heq1 heq2
      subst heq1
      subst heq2
      rw [he] at hrun
      dsimp only at hrun
      cases hvr : execVars reg p.vars ((dictGet inputs ent).getD []) fuel e names [] c t with
      | none =>
        rw [hvr] at hrun
        cases hrun
      | some st =>
        rw [hvr] at hrun
        obtain ⟨m2, c2, t2⟩ := st
        dsimp only at hrun
        have hm2 : dictGet m2 n = some Value.vnone :=
          execVars_bad reg p.vars _ fuel e n vb hlk hbi hbf hown names [] c t
            (m2, c2, t2) hvr hc (Or.inl hn)
        have hnotin : ent ∉ rest.map Prod.fst := by
          rw [List.map_cons] at hnd
          exact (List.nodup_cons.mp hnd).1
        refine ⟨m2, ?_, hm2⟩
        refine execEntities_entry_stable reg p inputs fuel ent m2 rest _ c2 t2 out hrun
          hnotin ?_
        exact dictGet_dictInsert_self r ent m2
    · have hne : e0 ≠ ent := by
        intro heq
        subst heq
        rw [List.map_cons] at hnd
        exact (List.nodup_cons.mp hnd).1 (List.mem_map.mpr ⟨(e0, names), hmem2, rfl⟩)
      have hnd2 : (rest.map Prod.fst).Nodup := by
        rw [List.map_cons] at hnd
        exact (List.nodup_cons.mp hnd).2
      cases hl : entityLookup p e0 with
      | none =>
        rw [hl] at hrun
        exact ih r c t out hrun hc hnd2 ⟨names, hmem2, hn⟩
      | some ev =>
        rw [hl] at hrun
        dsimp only at hrun
        cases hvr : execVars reg p.vars ((dictGet inputs e0).getD []) fuel ev names0 [] c t with
        | none =>
          rw [hvr] at hrun
          cases hrun
        | some st =>
          rw [hvr] at hrun
          obtain ⟨m2, c2, t2⟩ := st
          dsimp only at hrun
          have hc2 : dictGet c2 n = Option.none :=
            execVars_keeps_missing reg p.vars _ fuel ev n vb hlk hbi hbf names0 [] c t
              (m2, c2, t2) hvr hc
          exact ih _ c2 t2 out hrun hc2 hnd2 ⟨names, hmem2, hn⟩

/-- C7 (amended): a derived variable whose registered function raises on
every call is recorded as None in the result mapping of its entity, and the
exception never propagates out of execute (the call still returns a
result); failures are not cached, so this holds wherever the name is
requested under its own entity. The further assertion of the claim that sibling
results across the call are unchanged by the failing variable is false —
dependencies resolved on its behalf are cached and visible to later
entities (see the counterexample) — but the concrete scenario of the spec
holds: with income omitted, is_adult is still true while credit_score is
None. -/
theorem derived_failure_yields_none :
    (∀ (reg : Registry) (p : Project)
        (inputs : List (String × List (String × Value)))
        (outputs : List (String × List String)) (fuel : Nat)
        (r : List (String × List (String × Value))) (tr : Trace)
        (ent : String) (e : Entity) (names : List String) (n : String) (v : Variable),
      execute reg p inputs outputs fuel = some (r, tr) →
      (outputs.map Prod.fst).Nodup →
      (ent, names) ∈ outputs → n ∈ names →
      entityLookup p ent = some e →
      variableLookup p.vars n = some v → v.is_input = false → v.entity_id = e.id →
      (∀ fname, v.function_name = some fname →
        ∀ fn, dictGet reg fname = some fn → ∀ args, fn args = Option.none) →
      ∃ m, dictGet r ent = some m ∧ dictGet m n = some Value.vnone) ∧
    (execute specRegistry engineProject [("Customer", [("age", Value.vnum 30)])]
        [("Customer", ["is_adult", "credit_score"])] 10).map (fun st => st.1) =
      some [("Customer", [("is_adult", Value.vbool true), ("credit_score", Value.vnone)])] := by
  constructor
  · intro reg p inputs outputs fuel r tr ent e names n v hex hnd hmem hn he hv hvi hvo hbf
    unfold execute at hex
    cases hE : execEntities reg p inputs fuel outputs [] [] [] with
    | none =>
      rw [hE] at hex
      cases hex
    | some st =>
      rw [hE] at hex
      injection hex with hex
      have hr : st.1 = r := congrArg Prod.fst hex
      rw [← hr]
      exact execEntities_bad reg p inputs fuel ent e n v he hv hvi hbf hvo outputs
        [] [] [] st hE rfl hnd ⟨names, hmem, hn⟩
  · decide

/-- Witness for C7: with an always-raising credit-score function, execute
still returns, records None for credit_score under Customer, and the
sibling is_adult of the same entity still evaluates to true. -/
theorem derived_failure_yields_none_witness :
    (∃ m, dictGet [("Customer",
        [("is_adult", Value.vbool true), ("credit_score", Value.vnone)])] "Customer" =
          some m ∧
      dictGet m "credit_score" = some Value.vnone) ∧
    dictGet [("is_adult", Value.vbool true), ("credit_score", Value.vnone)] "is_adult" =
      some (Value.vbool true) := by
  constructor
  · refine derived_failure_yields_none.1
      [("check_adult", fun args =>
          match dictGet args "age" with
          | some (Value.vnum a) => some (Value.vbool (decide (18 ≤ a)))
          | _ => Option.none),
        ("calculate_credit_score", fun _ => Option.none)]
      engineProject [("Customer", [("age", Value.vnum 30)])]
      [("Customer", ["is_adult", "credit_score"])] 10
      [("Customer", [("is_adult", Value.vbool true), ("credit_score", Value.vnone)])] 
      [("is_adult", true), ("credit_score", false)]
      "Customer" ⟨"entity1", "Customer"⟩ ["is_adult", "credit_score"] "credit_score"
      (mkVar "var4" "credit_score" "entity1" false (some "calculate_credit_score")
        ["age", "income"] Option.none)
      rfl (by decide) (by decide) (by decide) rfl rfl rfl rfl ?_
    intro fname hf fn hfn args
    injection hf with hf
    subst hf
    have : dictGet
        [("check_adult", fun args =>
            match dictGet args "age" with
            | some (Value.vnum a) => some (Value.vbool (decide (18 ≤ a)))
            | _ => (Option.none : Option Value)),
          ("calculate_credit_score", fun _ => (Option.none : Option Value))]
        "calculate_credit_score" = some (fun _ => (Option.none : Option Value)) := rfl
    rw [this] at hfn
    injection hfn with hfn
    rw [← hfn]
  · rfl

/-- Counterexample to C7 as stated: the failing fA on entity A caches its
dependency x with the value 1 provided for A; the sibling gB on entity B
then reads 1 from the shared cache instead of its own provided 2, so
removing the failing variable from the request changes the sibling result
from 1 to 2. -/
theorem derived_failure_yields_none_counterexample :
    (execute c7Registry c7Proj
        [("A", [("x", Value.vnum 1)]), ("B", [("x", Value.vnum 2)])]
        [("A", ["fA"]), ("B", ["gB"])] 10).map (fun st => st.1) =
      some [("A", [("fA", Value.vnone)]), ("B", [("gB", Value.vnum 1)])] ∧
    (execute c7Registry c7Proj
        [("A", [("x", Value.vnum 1)]), ("B", [("x", Value.vnum 2)])]
        [("A", []), ("B", ["gB"])] 10).map (fun st => st.1) =
      some [("A", []), ("B", [("gB", Value.vnum 2)])] ∧
    Value.vnum 1 ≠ Value.vnum 2 := by
  refine ⟨by decide, by decide, by decide⟩
